import Mathlib

/-!
Verification of the storage engine in `src/examples/06.rs` (pages, buffer
pool, write-ahead log, transactions, ARIES-style recovery).

Shallow embedding conventions:
* `u8` values are modelled as `Nat`; arithmetic that can wrap in the source
  (`+= 1`, `-= 1` on byte fields) is modelled with `% 256` respectively
  truncated subtraction, matching release-mode wrapping / the in-range runs
  the engine performs.
* Fallible operations (Rust `unwrap`/index panics) return `Option`.
* Loops are modelled by structural recursion, with explicit fuel where the
  source loop is not structurally bounded (the recovery undo walk, log-file
  deserialization).
-/

namespace Rdbms

/-- `BeginLog` from the source: transaction id only. -/
structure BeginLog where
  transaction_id : Nat
deriving DecidableEq

/-- `CommitLog` from the source. -/
structure CommitLog where
  transaction_id : Nat
deriving DecidableEq

/-- `AbortLog` from the source. -/
structure AbortLog where
  transaction_id : Nat
deriving DecidableEq

/-- `InsertLog` from the source. -/
structure InsertLog where
  prev_lsn : Nat
  transaction_id : Nat
  page_id : Nat
  slot_id : Nat
  tuple : Nat
deriving DecidableEq

/-- `CompensateInsertLog` from the source (field name keeps the source's
typo `next_compenstate_lsn`). -/
structure CompensateInsertLog where
  next_compenstate_lsn : Nat
  transaction_id : Nat
  page_id : Nat
  slot_id : Nat
deriving DecidableEq

/-- `LogType` from the source. -/
inductive LogType where
  | Begin (l : BeginLog)
  | Commit (l : CommitLog)
  | Abort (l : AbortLog)
  | Insert (l : InsertLog)
  | CompensateInsert (l : CompensateInsertLog)
deriving DecidableEq

/-- `Log` from the source: an LSN-stamped record. -/
structure Log where
  lsn : Nat
  log_type : LogType
deriving DecidableEq

/-- `Log::serialize`: one byte LSN, one byte type tag, then the fields. -/
def Log.serialize (l : Log) : List Nat :=
  match l.log_type with
  | .Begin b => [l.lsn, 0, b.transaction_id]
  | .Commit c => [l.lsn, 1, c.transaction_id]
  | .Abort a => [l.lsn, 2, a.transaction_id]
  | .Insert i => [l.lsn, 3, i.prev_lsn, i.transaction_id, i.page_id, i.slot_id, i.tuple]
  | .CompensateInsert c =>
      [l.lsn, 4, c.next_compenstate_lsn, c.transaction_id, c.page_id, c.slot_id]

/-- `Log::deserialize`: reads one record from the front of the byte list and
returns it with the number of bytes consumed; `none` models the source's
panic on an unknown tag or a too-short buffer. -/
def Log.deserialize (bytes : List Nat) : Option (Log × Nat) :=
  match bytes with
  | lsn :: 0 :: tid :: _ => some (⟨lsn, .Begin ⟨tid⟩⟩, 3)
  | lsn :: 1 :: tid :: _ => some (⟨lsn, .Commit ⟨tid⟩⟩, 3)
  | lsn :: 2 :: tid :: _ => some (⟨lsn, .Abort ⟨tid⟩⟩, 3)
  | lsn :: 3 :: p :: t :: pg :: s :: tu :: _ =>
      some (⟨lsn, .Insert ⟨p, t, pg, s, tu⟩⟩, 7)
  | lsn :: 4 :: n :: t :: pg :: s :: _ =>
      some (⟨lsn, .CompensateInsert ⟨n, t, pg, s⟩⟩, 6)
  | _ => none

/-- Serialized size of a record by variant: 3 for Begin/Commit/Abort,
7 for Insert, 6 for CompensateInsert. -/
def logSize : LogType → Nat
  | .Begin _ => 3
  | .Commit _ => 3
  | .Abort _ => 3
  | .Insert _ => 7
  | .CompensateInsert _ => 6

/-! ## Log manager -/

/-- One deserialization step per unit of fuel; the source's
`LogManager::read` loop. Each valid record consumes at least 3 bytes, so
`bytes.length` units of fuel always suffice. `none` models a panic on
malformed bytes (or, impossibly for valid input, fuel exhaustion). -/
def readLogsAux : Nat → List Nat → Option (List Log)
  | _, [] => some []
  | 0, _ :: _ => none
  | fuel + 1, bytes => do
      let (log, sz) ← Log.deserialize bytes
      let rest ← readLogsAux fuel (bytes.drop sz)
      some (log :: rest)

/-- `LogManager::read`: deserialize the whole log file. -/
def readLogs (bytes : List Nat) : Option (List Log) :=
  readLogsAux bytes.length bytes

/-- `LogManager` state: the log file's bytes, the next LSN to assign, and
the in-memory buffer of unflushed records. -/
structure LogManagerS where
  file : List Nat
  current_lsn : Nat
  buffer : List Log
deriving DecidableEq

/-- `LogManager::init`: truncate the file, LSN counter at 0. -/
def LogManagerS.init : LogManagerS := ⟨[], 0, []⟩

/-- `LogManager::load`: open an existing log file and set `current_lsn` to
the LSN of the last persisted record (0 when the file is empty). Note the
source does NOT add 1 here. -/
def LogManagerS.load (bytes : List Nat) : Option LogManagerS := do
  let logs ← readLogs bytes
  some ⟨bytes, ((logs.getLast?).map Log.lsn).getD 0, []⟩

/-- `LogManager::append`: stamp the record with `current_lsn`, push it into
the buffer, and advance the counter (u8 wrap-around modelled by `% 256`). -/
def LogManagerS.append (lm : LogManagerS) (t : LogType) : Log × LogManagerS :=
  let log : Log := ⟨lm.current_lsn, t⟩
  (log, ⟨lm.file, (lm.current_lsn + 1) % 256, lm.buffer ++ [log]⟩)

/-- `LogManager::flush`: serialize the buffer, append it to the file,
clear the buffer. -/
def LogManagerS.flush (lm : LogManagerS) : LogManagerS :=
  ⟨lm.file ++ (lm.buffer.map Log.serialize).flatten, lm.current_lsn, []⟩

/-- `LogManager::read` on a manager value (reads the file bytes back). -/
def LogManagerS.read (lm : LogManagerS) : Option (List Log) :=
  readLogs lm.file

/-! ## Transactions -/

/-- `Transaction`: its id and the ordered list of its own log records. -/
structure Transaction where
  transaction_id : Nat
  logs : List Log
deriving DecidableEq

/-- `Transaction::new`. -/
def Transaction.new (id : Nat) : Transaction := ⟨id, []⟩

/-- `Transaction::prev_lsn`: LSN of the transaction's last record. The
source `unwrap`s (panics on an empty list); every transaction starts with
Begin, so the list is never empty in a run — the default 0 is never used. -/
def Transaction.prev_lsn (t : Transaction) : Nat :=
  ((t.logs.getLast?).map Log.lsn).getD 0

/-- `Transaction::log_insert`: append an Insert record whose `prev_lsn` is
the current chain tail; returns the new record's LSN. -/
def Transaction.log_insert (t : Transaction) (lm : LogManagerS)
    (page_id slot_id tuple : Nat) : Nat × Transaction × LogManagerS :=
  let (log, lm') := lm.append (.Insert ⟨t.prev_lsn, t.transaction_id, page_id, slot_id, tuple⟩)
  (log.lsn, ⟨t.transaction_id, t.logs ++ [log]⟩, lm')

/-- `Transaction::log_compensate_insert`: append a CLR carrying
`next_lsn`; returns the new record's LSN. -/
def Transaction.log_compensate_insert (t : Transaction) (lm : LogManagerS)
    (page_id slot_id next_lsn : Nat) : Nat × Transaction × LogManagerS :=
  let (log, lm') := lm.append (.CompensateInsert ⟨next_lsn, t.transaction_id, page_id, slot_id⟩)
  (log.lsn, ⟨t.transaction_id, t.logs ++ [log]⟩, lm')

/-- `Transaction::log_begin`. -/
def Transaction.log_begin (t : Transaction) (lm : LogManagerS) :
    Transaction × LogManagerS :=
  let (log, lm') := lm.append (.Begin ⟨t.transaction_id⟩)
  (⟨t.transaction_id, t.logs ++ [log]⟩, lm')

/-- `Transaction::log_commit`. -/
def Transaction.log_commit (t : Transaction) (lm : LogManagerS) :
    Transaction × LogManagerS :=
  let (log, lm') := lm.append (.Commit ⟨t.transaction_id⟩)
  (⟨t.transaction_id, t.logs ++ [log]⟩, lm')

/-- `Transaction::log_abort`. -/
def Transaction.log_abort (t : Transaction) (lm : LogManagerS) :
    Transaction × LogManagerS :=
  let (log, lm') := lm.append (.Abort ⟨t.transaction_id⟩)
  (⟨t.transaction_id, t.logs ++ [log]⟩, lm')

/-! ## Pages -/

/-- `PAGE_SIZE` from the source. -/
def PAGE_SIZE : Nat := 16

/-- A page: 16 raw bytes. Byte 0 is `page_id`, byte 1 is `page_lsn`,
byte 2 is `tuple_count`, bytes 3.. are one-byte tuple slots. -/
structure Page where
  bytes : List Nat
deriving DecidableEq

/-- `Page::init`: zeroed bytes with byte 0 set to the page id. -/
def Page.init (page_id : Nat) : Page :=
  ⟨(List.replicate PAGE_SIZE 0).set 0 page_id⟩

/-- `Page::page_id`. -/
def Page.page_id (p : Page) : Nat := p.bytes.getD 0 0

/-- `Page::page_lsn`. -/
def Page.page_lsn (p : Page) : Nat := p.bytes.getD 1 0

/-- `Page::tuple_length`. -/
def Page.tuple_length (p : Page) : Nat := p.bytes.getD 2 0

/-- `Page::read_tuples`: the occupied slots, bytes `3 .. 3+tuple_length`. -/
def Page.read_tuples (p : Page) : List Nat :=
  (p.bytes.drop 3).take p.tuple_length

/-- `Page::has_space`: `tuple_length < PAGE_SIZE - HEADER_SIZE = 13`. -/
def Page.has_space (p : Page) : Bool := p.tuple_length < 13

/-- `Page::insert_tuple`: writes `tuple` at slot `tuple_length` and
increments the count; when a transaction is supplied, first logs an Insert
and stamps `page_lsn` with the returned LSN. The optional
transaction/log-manager pair is threaded back to the caller exactly as the
source mutates them through `&mut`. -/
def Page.insert_tuple (p : Page) (tuple : Nat)
    (txn : Option (Transaction × LogManagerS)) :
    Page × Option (Transaction × LogManagerS) :=
  let slot_id := p.tuple_length
  match txn with
  | none =>
      (⟨(p.bytes.set (slot_id + 3) tuple).set 2 ((p.tuple_length + 1) % 256)⟩, none)
  | some (t, lm) =>
      let (lsn, t', lm') := t.log_insert lm p.page_id slot_id tuple
      let b := p.bytes.set 1 lsn
      (⟨(b.set (slot_id + 3) tuple).set 2 ((p.tuple_length + 1) % 256)⟩, some (t', lm'))

/-- The source's left-shift loop in `Page::rollback_insert`:
`for i in from_ .. from_ + k { bytes[i+3] = bytes[i+4] }`,
written with an explicit step count `k`. -/
def shiftLeftAux (b : List Nat) (from_ k : Nat) : List Nat :=
  match k with
  | 0 => b
  | k + 1 => shiftLeftAux (b.set (from_ + 3) (b.getD (from_ + 4) 0)) (from_ + 1) k

/-- `Page::rollback_insert`: optionally log a CLR (stamping `page_lsn`),
then decrement `tuple_count` (u8 wrap for 0 modelled by `+ 255 % 256`) and
left-shift the slots from `slot_id` up to the new count. -/
def Page.rollback_insert (p : Page) (slot_id : Nat)
    (txn : Option (Transaction × Nat × LogManagerS)) :
    Page × Option (Transaction × LogManagerS) :=
  match txn with
  | none =>
      let b := p.bytes.set 2 ((p.tuple_length + 255) % 256)
      let newCount := b.getD 2 0
      (⟨shiftLeftAux b slot_id (newCount - slot_id)⟩, none)
  | some (t, next_lsn, lm) =>
      let (lsn, t', lm') := t.log_compensate_insert lm p.page_id slot_id next_lsn
      let b0 := p.bytes.set 1 lsn
      let b := b0.set 2 (((b0.getD 2 0) + 255) % 256)
      let newCount := b.getD 2 0
      (⟨shiftLeftAux b slot_id (newCount - slot_id)⟩, some (t', lm'))

/-! ## Buffer pool manager (with the page manager's disk and the replacer) -/

/-- A buffer-pool frame: the cached page, which page it holds, its pin
count and its (sticky) dirty flag. -/
structure Frame where
  page : Page
  page_id : Nat
  pin_count : Nat
  is_dirty : Bool
deriving DecidableEq

/-- Association-list lookup (the source's `HashMap::get`). -/
def alookup : List (Nat × Nat) → Nat → Option Nat
  | [], _ => none
  | (a, b) :: t, k => if a = k then some b else alookup t k

/-- In-place update of one list element (the source's `&mut` access into
`Vec`); out-of-range indices leave the list unchanged. -/
def listModify : List Frame → Nat → (Frame → Frame) → List Frame
  | [], _, _ => []
  | x :: xs, 0, f => f x :: xs
  | x :: xs, n + 1, f => x :: listModify xs n f

/-- `Replacer::pin`: drop the frame index from the FIFO queue. -/
def replacerPin (q : List Nat) (i : Nat) : List Nat := q.erase i

/-- `Replacer::unpin`: drop any prior occurrence and push at the tail. -/
def replacerUnpin (q : List Nat) (i : Nat) : List Nat := q.erase i ++ [i]

/-- Buffer pool state. `disk` is the `PageManager`'s data file as a list of
pages (index = page id); `queue` is the replacer FIFO of unpinned frames. -/
structure BufferPoolManagerS where
  disk : List Page
  max_frame_length : Nat
  frames : List Frame
  page_frame_table : List (Nat × Nat)
  queue : List Nat
deriving DecidableEq

/-- `BufferPoolManager::read_page`: pin a resident page, or load it into a
free frame, or evict the replacer's victim (writing it back when dirty).
`none` models the source's panics: a read past the data file's end, or a
victim request from an empty replacer. -/
def BufferPoolManagerS.read_page (bp : BufferPoolManagerS) (page_id : Nat) :
    Option BufferPoolManagerS :=
  match alookup bp.page_frame_table page_id with
  | some frame_id =>
      some { bp with
        frames := listModify bp.frames frame_id
          (fun f => { f with pin_count := f.pin_count + 1 }),
        queue := replacerPin bp.queue frame_id }
  | none =>
    if bp.frames.length < bp.max_frame_length then
      match bp.disk[page_id]? with
      | none => none
      | some pg =>
          let frame_id := bp.frames.length
          some { bp with
            frames := bp.frames ++ [⟨pg, page_id, 1, false⟩],
            page_frame_table := (page_id, frame_id) :: bp.page_frame_table,
            queue := replacerPin bp.queue frame_id }
    else
      match bp.queue with
      | [] => none
      | v :: rest => do
          let victim ← bp.frames[v]?
          let disk' := if victim.is_dirty then bp.disk.set victim.page_id victim.page
                       else bp.disk
          let pg ← disk'[page_id]?
          some { disk := disk',
                 max_frame_length := bp.max_frame_length,
                 frames := bp.frames.set v ⟨pg, page_id, 1, false⟩,
                 page_frame_table :=
                   (page_id, v) ::
                     bp.page_frame_table.filter (fun e => ¬ e.1 = victim.page_id),
                 queue := replacerPin rest v }

/-- `BufferPoolManager::unpin_page`: decrement the pin count, enqueue the
frame in the replacer when it reaches 0, and OR in the dirty flag. -/
def BufferPoolManagerS.unpin_page (bp : BufferPoolManagerS) (page_id : Nat)
    (is_dirty : Bool) : Option BufferPoolManagerS := do
  let frame_id ← alookup bp.page_frame_table page_id
  let frame ← bp.frames[frame_id]?
  let newPin := frame.pin_count - 1
  some { bp with
    frames := bp.frames.set frame_id
      { frame with pin_count := newPin, is_dirty := frame.is_dirty || is_dirty },
    queue := if newPin = 0 then replacerUnpin bp.queue frame_id else bp.queue }

/-- `BufferPoolManager::allocate_page`: extend the data file with a zeroed
page (the `PageManager` part) and pin it; also returns the new page id. -/
def BufferPoolManagerS.allocate_page (bp : BufferPoolManagerS) :
    Option (Nat × BufferPoolManagerS) :=
  let page_id := bp.disk.length
  let bp' := { bp with disk := bp.disk ++ [Page.init page_id] }
  (bp'.read_page page_id).map (fun s => (page_id, s))

/-- Frame index currently holding `page_id`, if resident. -/
def BufferPoolManagerS.frameIdOf (bp : BufferPoolManagerS) (page_id : Nat) : Option Nat :=
  alookup bp.page_frame_table page_id

/-- The resident copy of a page (dereferencing the source's shared
`Arc<RwLock<Page>>` handle). -/
def BufferPoolManagerS.pageOf (bp : BufferPoolManagerS) (page_id : Nat) : Option Page := do
  let fid ← bp.frameIdOf page_id
  let f ← bp.frames[fid]?
  some f.page

/-- Write through the shared handle: replace the resident page's bytes. -/
def BufferPoolManagerS.setPage (bp : BufferPoolManagerS) (page_id : Nat) (pg : Page) :
    BufferPoolManagerS :=
  match bp.frameIdOf page_id with
  | none => bp
  | some fid => { bp with frames := listModify bp.frames fid (fun f => { f with page := pg }) }

/-- Pin count of the frame holding `page_id` (0 when not resident). -/
def BufferPoolManagerS.pinCountOf (bp : BufferPoolManagerS) (page_id : Nat) : Nat :=
  match bp.frameIdOf page_id with
  | none => 0
  | some fid => ((bp.frames[fid]?).map Frame.pin_count).getD 0

/-- Dirty flag of the frame holding `page_id` (`false` when not resident). -/
def BufferPoolManagerS.dirtyOf (bp : BufferPoolManagerS) (page_id : Nat) : Bool :=
  match bp.frameIdOf page_id with
  | none => false
  | some fid => ((bp.frames[fid]?).map Frame.is_dirty).getD false

/-! ## Database façade -/

/-- `Database` state: log manager, buffer pool (owning the data file),
next transaction id, and the id of the last heap page. -/
structure DatabaseS where
  lm : LogManagerS
  bp : BufferPoolManagerS
  current_transaction_id : Nat
  last_page_id : Nat
deriving DecidableEq

/-- `Database::init`: fresh files; the page manager allocates page 0
directly (no frame is created for it yet). -/
def DatabaseS.init (cap : Nat) : DatabaseS :=
  ⟨LogManagerS.init, ⟨[Page.init 0], cap, [], [], []⟩, 0, 0⟩

/-- `Database::begin`: new transaction with the next id, log Begin. -/
def DatabaseS.begin (db : DatabaseS) : DatabaseS × Transaction :=
  let t := Transaction.new db.current_transaction_id
  let (t', lm') := t.log_begin db.lm
  ({ db with
      lm := lm',
      current_transaction_id := (db.current_transaction_id + 1) % 256 }, t')

/-- `Database::commit`: log Commit and flush the log. -/
def DatabaseS.commit (db : DatabaseS) (t : Transaction) : DatabaseS × Transaction :=
  let (t', lm') := t.log_commit db.lm
  ({ db with lm := lm'.flush }, t')

/-- `Database::insert`: pin the last page; insert there when it has space,
otherwise allocate a fresh page, insert there and unpin it dirty; finally
unpin the originally pinned page dirty. -/
def DatabaseS.insert (db : DatabaseS) (t : Transaction) (tuple : Nat) :
    Option (DatabaseS × Transaction) := do
  let page_id := db.last_page_id
  let bp ← db.bp.read_page page_id
  let page ← bp.pageOf page_id
  let (db', t') ←
    if page.has_space then
      match page.insert_tuple tuple (some (t, db.lm)) with
      | (page', some (t', lm')) =>
          some ({ db with lm := lm', bp := bp.setPage page_id page' }, t')
      | (_, none) => none
    else do
      let (new_page_id, bp₁) ← bp.allocate_page
      let newPage ← bp₁.pageOf new_page_id
      match newPage.insert_tuple tuple (some (t, db.lm)) with
      | (page', some (t', lm')) => do
          let bp₂ := bp₁.setPage new_page_id page'
          let bp₃ ← bp₂.unpin_page new_page_id true
          some ({ db with lm := lm', bp := bp₃, last_page_id := new_page_id }, t')
      | (_, none) => none
  let bpFinal ← db'.bp.unpin_page page_id true
  some ({ db' with bp := bpFinal }, t')

/-- The loop body of `Database::read_all`: visit `page_id`, append its
tuples, continue while `last_page_id > page_id`. The fuel is the number of
remaining loop iterations (`last_page_id + 1` at the top call). -/
def readAllLoop : Nat → BufferPoolManagerS → Nat → Nat →
    Option (List Nat × BufferPoolManagerS)
  | 0, _, _, _ => none
  | fuel + 1, bp, last_page_id, page_id => do
      let bp₁ ← bp.read_page page_id
      let page ← bp₁.pageOf page_id
      let bp₂ ← bp₁.unpin_page page_id false
      if last_page_id > page_id then
        let (rest, bp₃) ← readAllLoop fuel bp₂ last_page_id (page_id + 1)
        some (page.read_tuples ++ rest, bp₃)
      else
        some (page.read_tuples, bp₂)

/-- `Database::read_all`: concatenate the occupied slots of pages
`0 .. last_page_id`, unpinning each page clean. -/
def DatabaseS.read_all (db : DatabaseS) : Option (List Nat × DatabaseS) := do
  let (vals, bp') ← readAllLoop (db.last_page_id + 1) db.bp db.last_page_id 0
  some (vals, { db with bp := bp' })

/-- The loop body of `Database::abort`, iterating over the reversed,
enumerated snapshot of the transaction's records. For each Insert record
the source pins the page and calls `rollback_insert` TWICE (a duplicated
block), each time passing `logs[i + 1].lsn` from the forward-order snapshot
while `i` counts from the newest record. -/
def abortLoop (snapshot : List Log) :
    List (Nat × Log) → DatabaseS → Transaction → Option (DatabaseS × Transaction)
  | [], db, t => some (db, t)
  | (i, log) :: rest, db, t =>
      match log.log_type with
      | .Insert il =>
          (do
            let bp ← db.bp.read_page il.page_id
            let nextLog ← snapshot[i + 1]?
            let page₁ ← bp.pageOf il.page_id
            match page₁.rollback_insert il.slot_id (some (t, nextLog.lsn, db.lm)) with
            | (page₁', some (t₁, lm₁)) =>
              let bp₁ := bp.setPage il.page_id page₁'
              (do
                let page₂ ← bp₁.pageOf il.page_id
                match page₂.rollback_insert il.slot_id (some (t₁, nextLog.lsn, lm₁)) with
                | (page₂', some (t₂, lm₂)) => do
                    let bp₂ := bp₁.setPage il.page_id page₂'
                    let bp₃ ← bp₂.unpin_page il.page_id true
                    abortLoop snapshot rest { db with lm := lm₂, bp := bp₃ } t₂
                | (_, none) => none)
            | (_, none) => none)
      | _ => abortLoop snapshot rest db t

/-- `Database::abort`: walk the snapshot of the transaction's own records
newest-first, roll back Inserts (twice, as the source does), then log Abort
and flush. -/
def DatabaseS.abort (db : DatabaseS) (t : Transaction) :
    Option (DatabaseS × Transaction) := do
  let snapshot := t.logs
  let (db₁, t₁) ← abortLoop snapshot snapshot.reverse.enum db t
  let (t₂, lm') := t₁.log_abort db₁.lm
  some ({ db₁ with lm := lm'.flush }, t₂)

/-! ## Recovery manager -/

/-- The ATT update in `RecoveryManager::analyze`:
`entry(tid).or_insert(lsn)` then `and_modify(max)` — insert when absent,
otherwise raise to the larger LSN. The ATT is kept in insertion order
(the source's `HashMap` has no specified order). -/
def attUpdateMax : List (Nat × Nat) → Nat → Nat → List (Nat × Nat)
  | [], tid, lsn => [(tid, lsn)]
  | (a, b) :: t, tid, lsn =>
      if a = tid then (a, if b < lsn then lsn else b) :: t
      else (a, b) :: attUpdateMax t tid lsn

/-- `RecoveryManager::analyze`: fold over the log building the active
transaction table (`txn_id → last_lsn`) and the maximum transaction id;
Commit and Abort remove their transaction from the table. -/
def analyzeLoop : List Log → List (Nat × Nat) → Nat → List (Nat × Nat) × Nat
  | [], att, m => (att, m)
  | log :: rest, att, m =>
      match log.log_type with
      | .Insert il =>
          analyzeLoop rest (attUpdateMax att il.transaction_id log.lsn)
            (max m il.transaction_id)
      | .CompensateInsert cl =>
          analyzeLoop rest (attUpdateMax att cl.transaction_id log.lsn)
            (max m cl.transaction_id)
      | .Begin bl =>
          analyzeLoop rest (attUpdateMax att bl.transaction_id log.lsn)
            (max m bl.transaction_id)
      | .Commit cl =>
          analyzeLoop rest (att.filter (fun e => ¬ e.1 = cl.transaction_id))
            (max m cl.transaction_id)
      | .Abort al =>
          analyzeLoop rest (att.filter (fun e => ¬ e.1 = al.transaction_id))
            (max m al.transaction_id)

/-- `RecoveryManager::analyze` from an empty table. -/
def analyzeLogs (logs : List Log) : List (Nat × Nat) × Nat :=
  analyzeLoop logs [] 0

/-- One record of `RecoveryManager::redo`. Insert and CompensateInsert pin
the page and re-apply their effect (unlogged, `None` transaction) exactly
when `page_lsn < record.lsn`, unpinning with the dirty flag saying whether
the effect was applied; every other record type is a no-op. The log
manager is threaded through untouched. -/
def redoOne (lm : LogManagerS) (bp : BufferPoolManagerS) (log : Log) :
    Option (LogManagerS × BufferPoolManagerS) :=
  match log.log_type with
  | .Insert il => do
      let bp₁ ← bp.read_page il.page_id
      let page ← bp₁.pageOf il.page_id
      let r :=
        if page.page_lsn < log.lsn then
          (true, bp₁.setPage il.page_id (page.insert_tuple il.tuple none).1)
        else (false, bp₁)
      let bp₃ ← r.2.unpin_page il.page_id r.1
      some (lm, bp₃)
  | .CompensateInsert cl => do
      let bp₁ ← bp.read_page cl.page_id
      let page ← bp₁.pageOf cl.page_id
      let r :=
        if page.page_lsn < log.lsn then
          (true, bp₁.setPage cl.page_id (page.rollback_insert cl.slot_id none).1)
        else (false, bp₁)
      let bp₃ ← r.2.unpin_page cl.page_id r.1
      some (lm, bp₃)
  | _ => some (lm, bp)

/-- `RecoveryManager::redo`: fold `redoOne` over the log in file order. -/
def recoveryRedo : List Log → LogManagerS → BufferPoolManagerS →
    Option (LogManagerS × BufferPoolManagerS)
  | [], lm, bp => some (lm, bp)
  | log :: rest, lm, bp => do
      let (lm₁, bp₁) ← redoOne lm bp log
      recoveryRedo rest lm₁ bp₁

/-- `HashMap::insert` on the LSN table: overwrite an existing key. -/
def aset : List (Nat × Nat) → Nat → Nat → List (Nat × Nat)
  | [], k, v => [(k, v)]
  | (a, b) :: t, k, v => if a = k then (k, v) :: t else (a, b) :: aset t k v

/-- The LSN → log-index table built at the start of
`RecoveryManager::undo`; a later record with a duplicate LSN overwrites the
earlier entry. -/
def buildLsnTable (logs : List Log) : List (Nat × Nat) :=
  logs.enum.foldl (fun tbl p => aset tbl p.2.lsn p.1) []

/-- Result of one iteration of the undo walk loop. -/
inductive UndoStepRes where
  | goto (lsn : Nat) (lm : LogManagerS) (bp : BufferPoolManagerS)
  | done (lm : LogManagerS) (bp : BufferPoolManagerS)
  | fail
deriving DecidableEq

/-- One iteration of the `loop` in `RecoveryManager::undo` at cursor
`lsn`: an Insert pins its page, applies the unlogged inverse, pins the page
a SECOND time (the source's stray `read_page` with no matching unpin), and
moves the cursor to `prev_lsn`; Begin terminates; every other record type
(the `_ => {}` arm, including CompensateInsert) leaves the cursor
unchanged, so the loop never progresses past it. -/
def undoStep (logs : List Log) (tbl : List (Nat × Nat)) (lm : LogManagerS)
    (bp : BufferPoolManagerS) (lsn : Nat) : UndoStepRes :=
  match alookup tbl lsn with
  | none => .fail
  | some idx =>
    match logs[idx]? with
    | none => .fail
    | some log =>
      match log.log_type with
      | .Insert il =>
          match (do
            let bp₁ ← bp.read_page il.page_id
            let page ← bp₁.pageOf il.page_id
            let bp₂ := bp₁.setPage il.page_id (page.rollback_insert il.slot_id none).1
            bp₂.read_page il.page_id : Option BufferPoolManagerS) with
          | some bp₃ => .goto il.prev_lsn lm bp₃
          | none => .fail
      | .Begin _ => .done lm bp
      | _ => .goto lsn lm bp

/-- The undo walk, fueled: the source loop runs until Begin, and spins
forever (fuel exhaustion, `none`) when the cursor stops moving. -/
def undoWalk (logs : List Log) (tbl : List (Nat × Nat)) :
    Nat → Nat → LogManagerS → BufferPoolManagerS →
    Option (LogManagerS × BufferPoolManagerS)
  | 0, _, _, _ => none
  | fuel + 1, lsn, lm, bp =>
      match undoStep logs tbl lm bp lsn with
      | .goto lsn' lm' bp' => undoWalk logs tbl fuel lsn' lm' bp'
      | .done lm' bp' => some (lm', bp')
      | .fail => none

/-- Undo of one loser: the one-time pre-loop adjustment (a CompensateInsert
at `last_lsn` moves the cursor to its `next_compenstate_lsn`) followed by
the walk. `logs.length + 1` fuel covers any terminating walk, since a
terminating walk visits each table entry at most once. -/
def undoOne (logs : List Log) (tbl : List (Nat × Nat)) (lm : LogManagerS)
    (bp : BufferPoolManagerS) (last_lsn : Nat) :
    Option (LogManagerS × BufferPoolManagerS) := do
  let idx ← alookup tbl last_lsn
  let log ← logs[idx]?
  let lsn :=
    match log.log_type with
    | .CompensateInsert cl => cl.next_compenstate_lsn
    | _ => last_lsn
  undoWalk logs tbl (logs.length + 1) lsn lm bp

/-- `RecoveryManager::undo` over all losers in the ATT. -/
def undoAll (logs : List Log) (tbl : List (Nat × Nat)) :
    List (Nat × Nat) → LogManagerS → BufferPoolManagerS →
    Option (LogManagerS × BufferPoolManagerS)
  | [], lm, bp => some (lm, bp)
  | (_, last) :: rest, lm, bp => do
      let (lm', bp') ← undoOne logs tbl lm bp last
      undoAll logs tbl rest lm' bp'

/-- `RecoveryManager::undo`. -/
def recoveryUndo (logs : List Log) (att : List (Nat × Nat)) (lm : LogManagerS)
    (bp : BufferPoolManagerS) : Option (LogManagerS × BufferPoolManagerS) :=
  undoAll logs (buildLsnTable logs) att lm bp

/-- `RecoveryManager::run`: read the log, analyze, redo, undo; returns the
maximum transaction id seen. -/
def recoveryRun (lm : LogManagerS) (bp : BufferPoolManagerS) :
    Option (Nat × LogManagerS × BufferPoolManagerS) := do
  let logs ← lm.read
  let (att, maxT) := analyzeLogs logs
  let (lm₁, bp₁) ← recoveryRedo logs lm bp
  let (lm₂, bp₂) ← recoveryUndo logs att lm₁ bp₁
  some (maxT, lm₂, bp₂)

/-- `Database::load`: reopen from the surviving data file and log file,
run recovery, resume transaction ids after the largest one seen. -/
def DatabaseS.load (disk : List Page) (logBytes : List Nat) (cap : Nat) :
    Option DatabaseS := do
  let lm ← LogManagerS.load logBytes
  let last_page_id := disk.length - 1
  let bp : BufferPoolManagerS := ⟨disk, cap, [], [], []⟩
  let (maxT, lm', bp') ← recoveryRun lm bp
  some ⟨lm', bp', (maxT + 1) % 256, last_page_id⟩

/-- A crash: only the data file and the flushed log bytes survive; the log
buffer and all buffer-pool frames are lost. -/
def DatabaseS.crashState (db : DatabaseS) : List Page × List Nat :=
  (db.bp.disk, db.lm.file)

/-! ## Concrete runs used by the claims -/

/-- init; t1 = begin; insert(t1, 10); commit(t1); t2 = begin;
insert(t2, 30); abort(t2). Returns the final database and t2. -/
def runAbortScenario : Option (DatabaseS × Transaction) := do
  let db := DatabaseS.init 10
  let (db, t1) := db.begin
  let (db, t1) ← db.insert t1 10
  let (db, _) := db.commit t1
  let (db, t2) := db.begin
  let (db, t2) ← db.insert t2 30
  db.abort t2

/-- `read_all()` right after the abort scenario. -/
def readAllAfterAbort : Option (List Nat) := do
  let (db, _) ← runAbortScenario
  let (vals, _) ← db.read_all
  some vals

/-- The final record list of the aborted transaction t2. -/
def abortedTxnLogs : Option (List Log) :=
  (runAbortScenario).map (fun r => r.2.logs)

/-- The claim C1 interleaved run: init; t1 = begin; t2 = begin;
insert(t1, 10); insert(t2, 20); commit(t1); crash; load; read_all. -/
def runC1Interleaved : Option (List Nat) := do
  let db := DatabaseS.init 10
  let (db, t1) := db.begin
  let (db, t2) := db.begin
  let (db, t1) ← db.insert t1 10
  let (db, _) ← db.insert t2 20
  let (db, _) := db.commit t1
  let (disk, logBytes) := db.crashState
  let db' ← DatabaseS.load disk logBytes 10
  let (vals, _) ← db'.read_all
  some vals

/-- Crash after the abort scenario, reload, read_all: commit(t1) had
returned successfully before the crash, so the durability contract
requires tuple 10 to be present. -/
def runC1AfterAbortCrash : Option (List Nat) := do
  let (db, _) ← runAbortScenario
  let (disk, logBytes) := db.crashState
  let db' ← DatabaseS.load disk logBytes 10
  let (vals, _) ← db'.read_all
  some vals

/-- init; begin; insert 10; commit; crash; load — then look at page 0 in
the pool (for C7). -/
def pageAfterSimpleRecovery : Option Page := do
  let db := DatabaseS.init 10
  let (db, t) := db.begin
  let (db, t) ← db.insert t 10
  let (db, _) := db.commit t
  let (disk, logBytes) := db.crashState
  let db' ← DatabaseS.load disk logBytes 10
  db'.bp.pageOf 0

/-- A single zeroed page 0 behind an empty 10-frame pool. -/
def freshPoolOnePage : BufferPoolManagerS := ⟨[Page.init 0], 10, [], [], []⟩

/-- An Insert record whose `slot_id` (3) differs from the page's current
`tuple_count` (0): input separating "write at the record's slot" from the
code's "write at the current count" in redo. -/
def c4Record : Log := ⟨5, .Insert ⟨0, 0, 0, 3, 7⟩⟩

/-- The resident page 0 after redoing `c4Record` over a zeroed page. -/
def c4PageAfterRedo : Option Page := do
  let (_, bp) ← recoveryRedo [c4Record] LogManagerS.init freshPoolOnePage
  bp.pageOf 0

/-- The pool after redoing `c4Record` via `redoOne` (total by default). -/
def c4BpAfter : BufferPoolManagerS :=
  match redoOne LogManagerS.init freshPoolOnePage c4Record with
  | some r => r.2
  | none => freshPoolOnePage

/-- A log list in which the undo walk of loser 0 (last_lsn 2) reaches a
CompensateInsert mid-walk: Insert 2 has `prev_lsn = 1`, a CLR. -/
def c5Logs : List Log :=
  [⟨0, .Begin ⟨0⟩⟩, ⟨1, .CompensateInsert ⟨0, 0, 0, 0⟩⟩, ⟨2, .Insert ⟨1, 0, 0, 0, 9⟩⟩]

/-- A two-record log: Begin 0 then Insert 1 on page 0, slot 0 (used to
witness the undo-step theorems). -/
def logs9 : List Log := [⟨0, .Begin ⟨0⟩⟩, ⟨1, .Insert ⟨0, 0, 0, 0, 9⟩⟩]

/-- A pool whose single frame holds page 0 pinned twice and absent from
the replacer queue (the situation undo leaves behind). -/
def bpSticky : BufferPoolManagerS :=
  ⟨[Page.init 0], 10, [⟨Page.init 0, 0, 2, false⟩], [(0, 0)], []⟩

/-- Log-file bytes holding records with LSNs 0 and 1 (for C6). -/
def c6File : List Nat :=
  Log.serialize ⟨0, .Begin ⟨0⟩⟩ ++ Log.serialize ⟨1, .Commit ⟨0⟩⟩

/-- The LSN `LogManager::load`-then-`append` stamps on the first record
appended after reopening `c6File`. -/
def c6NextLsn : Option Nat :=
  (LogManagerS.load c6File).map (fun lm => ((lm.append (.Begin ⟨1⟩)).1).lsn)

/-- A flushed log for C7: Begin 0, Insert (tuple 10 into page 0), Commit. -/
def c7File : List Nat :=
  Log.serialize ⟨0, .Begin ⟨0⟩⟩ ++ Log.serialize ⟨1, .Insert ⟨0, 0, 0, 0, 10⟩⟩ ++
    Log.serialize ⟨2, .Commit ⟨0⟩⟩

/-- `Database::load` on a one-page data file and `c7File`: redo replays
the committed Insert into the (fresh, page_lsn 0) page 0. -/
def c7Db : Option DatabaseS := DatabaseS.load [Page.init 0] c7File 10

/-- A page 0 carrying one tuple (42) with page_lsn 5, used as a dirty
resident frame for the C10 counterexample. -/
def c10DirtyPage : Page := ⟨[0, 5, 1, 42, 0, 0, 0, 0, 0, 0, 0, 0, 0, 0, 0, 0]⟩

/-- A pool of capacity 1 whose single frame holds `c10DirtyPage` unpinned
and dirty, with a two-page data file (`last_page_id = 1`): reading page 1
during `read_all` must evict the dirty frame. -/
def c10Bp : BufferPoolManagerS :=
  ⟨[Page.init 0, Page.init 1], 1, [⟨c10DirtyPage, 0, 0, true⟩], [(0, 0)], [0]⟩

/-- `read_all`'s loop over pages 0..1 on `c10Bp`. -/
def c10After : Option (List Nat × BufferPoolManagerS) :=
  readAllLoop 2 c10Bp 1 0

/-- A database whose pages 0 and 1 are both already resident (page 0's
frame dirty, page 1's clean), so `read_all` evicts nothing. -/
def c10ResidentDb : DatabaseS :=
  ⟨LogManagerS.init,
   ⟨[Page.init 0, Page.init 1], 10,
    [⟨c10DirtyPage, 0, 0, true⟩, ⟨Page.init 1, 1, 0, false⟩],
    [(0, 0), (1, 1)], [0, 1]⟩, 0, 1⟩

/-! ## Auxiliary notions for the general theorems -/

/-- Iterate `LogManager::append` over a list of record bodies. -/
def appendAll (lm : LogManagerS) : List LogType → LogManagerS
  | [] => lm
  | t :: ts => appendAll (lm.append t).2 ts

/-- A buffer-pool call made by a client: pin a page or release it. -/
inductive PoolOp where
  | readOp (page_id : Nat)
  | unpinOp (page_id : Nat) (is_dirty : Bool)
deriving DecidableEq

/-- Run a sequence of buffer-pool calls. -/
def applyOps : BufferPoolManagerS → List PoolOp → Option BufferPoolManagerS
  | bp, [] => some bp
  | bp, .readOp pid :: rest => (bp.read_page pid).bind (fun b => applyOps b rest)
  | bp, .unpinOp pid d :: rest => (bp.unpin_page pid d).bind (fun b => applyOps b rest)

/-- The pin/unpin discipline for page `pid`, tracked with the current
surplus `s` of reads over unpins: every unpin of `pid` releases a pin
taken by an earlier read of `pid` in the same sequence. -/
def balancedFor (pid : Nat) : Nat → List PoolOp → Bool
  | _, [] => true
  | s, .readOp q :: rest =>
      if q = pid then balancedFor pid (s + 1) rest else balancedFor pid s rest
  | s, .unpinOp q _ :: rest =>
      if q = pid then
        match s with
        | 0 => false
        | s' + 1 => balancedFor pid s' rest
      else balancedFor pid s rest

/-- Well-formedness of a buffer pool, as established by construction and
maintained by its operations: every page-table entry points at a frame
holding that page, every frame's page id looks up back to its own index,
and the replacer queue is duplicate-free and holds only unpinned frames. -/
structure WfPool (bp : BufferPoolManagerS) : Prop where
  tb : ∀ e ∈ bp.page_frame_table, ((bp.frames[e.2]?).map Frame.page_id) = some e.1
  fb : ∀ i ∈ List.range bp.frames.length,
      ((bp.frames[i]?).bind (fun fr => alookup bp.page_frame_table fr.page_id)) = some i
  qn : bp.queue.Nodup
  qp : ∀ i ∈ bp.queue, ((bp.frames[i]?).map Frame.pin_count) = some 0

/-- The `page_lsn` a client would see for `pid`: the resident copy's when
the page is cached, the data file's otherwise. -/
def pageLsnView (bp : BufferPoolManagerS) (pid : Nat) : Option Nat :=
  match bp.pageOf pid with
  | some p => some p.page_lsn
  | none => (bp.disk[pid]?).map Page.page_lsn

/-- Invariant for the recovery passes over a pool opened on data file
`disk₀`: no page's `page_lsn` ever moves away from its `disk₀` value —
neither on disk nor in any frame — and the page table is consistent. -/
structure PoolInv (disk₀ : List Page) (bp : BufferPoolManagerS) : Prop where
  diskLsn : ∀ q : Nat, ((bp.disk[q]?).map Page.page_lsn) = ((disk₀[q]?).map Page.page_lsn)
  frameLsn : ∀ (i : Nat) (fr : Frame), bp.frames[i]? = some fr →
      some fr.page.page_lsn = ((disk₀[fr.page_id]?).map Page.page_lsn)
  tableOk : ∀ e ∈ bp.page_frame_table,
      ((bp.frames[e.2]?).map Frame.page_id) = some e.1

/-- The tuples `read_all` gathers from page `pid` ([] when absent). -/
def poolTuples (bp : BufferPoolManagerS) (pid : Nat) : List Nat :=
  ((bp.pageOf pid).map Page.read_tuples).getD []

end Rdbms

namespace Rdbms

/-! ## Helper lemmas -/

/-- LSNs stamped by a run of appends: each append stamps the current
counter and advances it mod 256. -/
theorem appendAll_lsns (ts : List LogType) : ∀ lm : LogManagerS, lm.current_lsn < 256 →
    ((appendAll lm ts).buffer.map Log.lsn) =
      lm.buffer.map Log.lsn ++
        (List.range ts.length).map (fun i => (lm.current_lsn + i) % 256) := by
  induction ts with
  | nil => intro lm _; simp [appendAll]
  | cons t ts ih =>
      intro lm h
      rw [appendAll, ih _ (by simp only [LogManagerS.append]; exact Nat.mod_lt _ (by norm_num))]
      simp only [LogManagerS.append, List.map_append, List.map_cons, List.map_nil,
        List.length_cons, List.range_succ_eq_map, List.map_map, List.append_assoc,
        List.cons_append, List.nil_append]
      congr 1
      refine List.cons_eq_cons.mpr ⟨by simpa using (Nat.mod_eq_of_lt h).symm, ?_⟩
      apply List.map_congr_left
      intro a _
      simp only [Function.comp_apply]
      rw [Nat.mod_add_mod]
      congr 1
      omega

/-- The counter after a run of appends. -/
theorem appendAll_current (ts : List LogType) : ∀ lm : LogManagerS, lm.current_lsn < 256 →
    (appendAll lm ts).current_lsn = (lm.current_lsn + ts.length) % 256 := by
  induction ts with
  | nil => intro lm h; simpa [appendAll] using (Nat.mod_eq_of_lt h).symm
  | cons t ts ih =>
      intro lm h
      rw [appendAll, ih _ (by simp only [LogManagerS.append]; exact Nat.mod_lt _ (by norm_num))]
      simp only [LogManagerS.append, List.length_cons]
      rw [Nat.mod_add_mod]
      congr 1
      omega

/-- `listModify` acts pointwise: index `i` is mapped, others unchanged. -/
theorem listModify_getElem? (l : List Frame) :
    ∀ (i j : Nat) (f : Frame → Frame),
      (listModify l i f)[j]? = if i = j then (l[j]?).map f else l[j]? := by
  induction l with
  | nil => intro i j f; cases i <;> cases j <;> simp [listModify]
  | cons x xs ih =>
      intro i j f
      cases i with
      | zero => cases j <;> simp [listModify]
      | succ i =>
          cases j with
          | zero => simp [listModify]
          | succ j => simpa [listModify, Nat.succ_inj] using ih i j f

/-- Setting an index back to its current value is the identity. -/
theorem set_getElem?_id (l : List Frame) :
    ∀ (i : Nat) (a : Frame), l[i]? = some a → l.set i a = l := by
  induction l with
  | nil => intro i a h; simp at h
  | cons x xs ih =>
      intro i a h
      cases i with
      | zero => simp at h; simp [h]
      | succ i => simp at h; simp [ih i a h]

/-- `alookup` ignores entries removed by a key-filter for other keys. -/
theorem alookup_filter_ne (l : List (Nat × Nat)) :
    ∀ (k pid : Nat), ¬ pid = k →
      alookup (l.filter (fun e => ¬ e.1 = k)) pid = alookup l pid := by
  induction l with
  | nil => intro k pid _; simp [alookup]
  | cons e l ih =>
      intro k pid hne
      have ih' := ih k pid hne
      simp only [decide_not] at ih'
      have hkp : ¬ k = pid := fun h => hne h.symm
      by_cases hek : e.1 = k
      · have hep : ¬ e.1 = pid := by
          intro h
          exact hne (by rw [← h, hek])
        simp [List.filter_cons, hek, alookup, hep, ih', hkp, hne]
      · by_cases hep : e.1 = pid
        · simp [List.filter_cons, hek, alookup, hep, hkp, hne]
        · simp [List.filter_cons, hek, alookup, hep, ih', hkp, hne]

/-- The shift loop touches only bytes at index 3 and above. -/
theorem shiftLeftAux_getElem?_lt :
    ∀ (k : Nat) (b : List Nat) (from_ j : Nat), j < 3 →
      (shiftLeftAux b from_ k)[j]? = b[j]? := by
  intro k
  induction k with
  | zero => intro b from_ j _; simp [shiftLeftAux]
  | succ k ih =>
      intro b from_ j hj
      rw [shiftLeftAux, ih _ _ _ hj, List.getElem?_set_ne (by omega)]

/-- The unlogged insert used by redo never touches the `page_lsn` byte. -/
theorem insert_tuple_none_page_lsn (p : Page) (t : Nat) :
    ((p.insert_tuple t none).1).page_lsn = p.page_lsn := by
  simp only [Page.insert_tuple, Page.page_lsn, List.getD_eq_getElem?_getD]
  rw [List.getElem?_set_ne (by omega), List.getElem?_set_ne (by omega)]

/-- The unlogged insert never touches the `page_id` byte either. -/
theorem insert_tuple_none_page_id (p : Page) (t : Nat) :
    ((p.insert_tuple t none).1).page_id = p.page_id := by
  simp only [Page.insert_tuple, Page.page_id, List.getD_eq_getElem?_getD]
  rw [List.getElem?_set_ne (by omega), List.getElem?_set_ne (by omega)]

/-- The unlogged rollback used by redo and undo never touches the
`page_lsn` byte. -/
theorem rollback_insert_none_page_lsn (p : Page) (s : Nat) :
    ((p.rollback_insert s none).1).page_lsn = p.page_lsn := by
  simp only [Page.rollback_insert, Page.page_lsn, List.getD_eq_getElem?_getD]
  rw [shiftLeftAux_getElem?_lt _ _ _ _ (by omega), List.getElem?_set_ne (by omega)]

/-- The unlogged rollback never touches the `page_id` byte. -/
theorem rollback_insert_none_page_id (p : Page) (s : Nat) :
    ((p.rollback_insert s none).1).page_id = p.page_id := by
  simp only [Page.rollback_insert, Page.page_id, List.getD_eq_getElem?_getD]
  rw [shiftLeftAux_getElem?_lt _ _ _ _ (by omega), List.getElem?_set_ne (by omega)]

/-- The three ways `read_page` can succeed: pin a resident frame, load
into a free frame, or evict the replacer's victim. -/
theorem read_page_cases (bp : BufferPoolManagerS) (pid : Nat) (bp₁ : BufferPoolManagerS)
    (h : bp.read_page pid = some bp₁) :
    (∃ fid, alookup bp.page_frame_table pid = some fid ∧
       bp₁ = { bp with
                frames := listModify bp.frames fid
                  (fun f => { f with pin_count := f.pin_count + 1 }),
                queue := replacerPin bp.queue fid }) ∨
    (∃ pg, alookup bp.page_frame_table pid = none ∧
       bp.frames.length < bp.max_frame_length ∧ bp.disk[pid]? = some pg ∧
       bp₁ = { bp with
                frames := bp.frames ++ [⟨pg, pid, 1, false⟩],
                page_frame_table := (pid, bp.frames.length) :: bp.page_frame_table,
                queue := replacerPin bp.queue bp.frames.length }) ∨
    (∃ v rest victim pg,
       alookup bp.page_frame_table pid = none ∧
       ¬ bp.frames.length < bp.max_frame_length ∧
       bp.queue = v :: rest ∧ bp.frames[v]? = some victim ∧
       ((if victim.is_dirty then bp.disk.set victim.page_id victim.page
         else bp.disk))[pid]? = some pg ∧
       bp₁ = { disk := (if victim.is_dirty then bp.disk.set victim.page_id victim.page
                        else bp.disk),
               max_frame_length := bp.max_frame_length,
               frames := bp.frames.set v ⟨pg, pid, 1, false⟩,
               page_frame_table :=
                 (pid, v) :: bp.page_frame_table.filter (fun e => ¬ e.1 = victim.page_id),
               queue := replacerPin rest v }) := by
  unfold BufferPoolManagerS.read_page at h
  cases hlook : alookup bp.page_frame_table pid with
  | some fid =>
      rw [hlook] at h
      exact Or.inl ⟨fid, rfl, (Option.some.inj h).symm⟩
  | none =>
      rw [hlook] at h
      by_cases hlen : bp.frames.length < bp.max_frame_length
      · rw [if_pos hlen] at h
        cases hdisk : bp.disk[pid]? with
        | none => rw [hdisk] at h; exact absurd h (by simp)
        | some pg =>
            rw [hdisk] at h
            exact Or.inr (Or.inl ⟨pg, rfl, hlen, rfl, (Option.some.inj h).symm⟩)
      · rw [if_neg hlen] at h
        cases hq : bp.queue with
        | nil => rw [hq] at h; exact absurd h (by simp)
        | cons v rest =>
            rw [hq] at h
            simp only [Option.bind_eq_bind] at h
            cases hv : bp.frames[v]? with
            | none => rw [hv] at h; exact absurd h (by simp)
            | some victim =>
                rw [hv] at h
                simp only [Option.some_bind] at h
                cases hd : ((if victim.is_dirty then bp.disk.set victim.page_id victim.page
                    else bp.disk))[pid]? with
                | none => rw [hd] at h; exact absurd h (by simp)
                | some pg =>
                    rw [hd] at h
                    simp only [Option.some_bind] at h
                    exact Or.inr (Or.inr ⟨v, rest, victim, pg, rfl, hlen, rfl, hv, hd,
                      (Option.some.inj h).symm⟩)

/-- The single way `unpin_page` can succeed. -/
theorem unpin_page_eq (bp : BufferPoolManagerS) (pid : Nat) (d : Bool)
    (bp₂ : BufferPoolManagerS) (h : bp.unpin_page pid d = some bp₂) :
    ∃ fid fr, alookup bp.page_frame_table pid = some fid ∧ bp.frames[fid]? = some fr ∧
      bp₂ = { bp with
               frames := bp.frames.set fid
                 { fr with pin_count := fr.pin_count - 1, is_dirty := fr.is_dirty || d },
               queue := if fr.pin_count - 1 = 0 then replacerUnpin bp.queue fid
                        else bp.queue } := by
  unfold BufferPoolManagerS.unpin_page at h
  cases hlook : alookup bp.page_frame_table pid with
  | none => rw [hlook] at h; exact absurd h (by simp)
  | some fid =>
      rw [hlook] at h
      simp only [Option.bind_eq_bind, Option.some_bind] at h
      cases hv : bp.frames[fid]? with
      | none => rw [hv] at h; exact absurd h (by simp)
      | some fr =>
          rw [hv] at h
          simp only [Option.some_bind] at h
          exact ⟨fid, fr, rfl, hv, (Option.some.inj h).symm⟩

/-- A successful `alookup` names an entry of the list. -/
theorem alookup_mem (l : List (Nat × Nat)) :
    ∀ (k v : Nat), alookup l k = some v → (k, v) ∈ l := by
  induction l with
  | nil => intro k v h; simp [alookup] at h
  | cons e l ih =>
      intro k v h
      obtain ⟨a, b⟩ := e
      rw [alookup] at h
      by_cases hk : a = k
      · rw [if_pos hk] at h
        subst hk
        simp [(Option.some.inj h).symm]
      · rw [if_neg hk] at h
        exact List.mem_cons_of_mem _ (ih k v h)

/-- `listModify` preserves the length. -/
theorem listModify_length (l : List Frame) :
    ∀ (i : Nat) (f : Frame → Frame), (listModify l i f).length = l.length := by
  induction l with
  | nil => intro i f; cases i <;> simp [listModify]
  | cons x xs ih =>
      intro i f
      cases i with
      | zero => simp [listModify]
      | succ i => simp [listModify, ih]

/-- From well-formedness: a table hit names a frame holding that page. -/
theorem wf_table_frame {bp : BufferPoolManagerS} (wf : WfPool bp) {p f : Nat}
    (h : alookup bp.page_frame_table p = some f) :
    ∃ fr, bp.frames[f]? = some fr ∧ fr.page_id = p := by
  have hm := wf.tb (p, f) (alookup_mem _ _ _ h)
  cases hv : bp.frames[f]? with
  | none => rw [hv] at hm; exact absurd hm (by simp)
  | some fr =>
      rw [hv] at hm
      exact ⟨fr, rfl, Option.some.inj hm⟩

/-- From well-formedness: a frame's page looks up back to its index. -/
theorem wf_frame_table {bp : BufferPoolManagerS} (wf : WfPool bp) {i : Nat} {fr : Frame}
    (h : bp.frames[i]? = some fr) :
    alookup bp.page_frame_table fr.page_id = some i := by
  have hi : i < bp.frames.length := by
    by_contra hge
    rw [List.getElem?_eq_none (by omega)] at h
    exact absurd h (by simp)
  have := wf.fb i (List.mem_range.mpr hi)
  rw [h] at this
  simpa using this

/-- From well-formedness: two table hits with different keys name
different frames. -/
theorem wf_fid_ne {bp : BufferPoolManagerS} (wf : WfPool bp) {p q f g : Nat}
    (hp : alookup bp.page_frame_table p = some f)
    (hq : alookup bp.page_frame_table q = some g) (hne : ¬ q = p) : ¬ g = f := by
  intro hgf
  obtain ⟨fr, hfr, hid⟩ := wf_table_frame wf hp
  obtain ⟨fr', hfr', hid'⟩ := wf_table_frame wf hq
  rw [hgf] at hfr'
  rw [hfr] at hfr'
  exact hne (by rw [← hid', Option.some.inj hfr'.symm, hid])

/-- `setPage` rewrites the resident copy the caller just read. -/
theorem setPage_pageOf (bp : BufferPoolManagerS) (pid : Nat) (pg pg₀ : Page)
    (h : bp.pageOf pid = some pg₀) :
    (bp.setPage pid pg).pageOf pid = some pg := by
  unfold BufferPoolManagerS.pageOf BufferPoolManagerS.frameIdOf at h ⊢
  unfold BufferPoolManagerS.setPage BufferPoolManagerS.frameIdOf
  cases hlook : alookup bp.page_frame_table pid with
  | none => rw [hlook] at h; exact absurd h (by simp)
  | some fid =>
      rw [hlook] at h
      simp only [Option.bind_eq_bind, Option.some_bind] at h ⊢
      cases hv : bp.frames[fid]? with
      | none => rw [hv] at h; exact absurd h (by simp)
      | some fr =>
          simp only [hlook, Option.bind_eq_bind, Option.some_bind]
          rw [listModify_getElem?, if_pos rfl, hv]
          simp

/-- `setPage` never changes pin counts. -/
theorem setPage_pinCountOf (bp : BufferPoolManagerS) (pid : Nat) (pg : Page) (q : Nat) :
    (bp.setPage pid pg).pinCountOf q = bp.pinCountOf q := by
  unfold BufferPoolManagerS.setPage BufferPoolManagerS.pinCountOf BufferPoolManagerS.frameIdOf
  cases hlook : alookup bp.page_frame_table pid with
  | none => rfl
  | some fid =>
      dsimp only
      cases hq : alookup bp.page_frame_table q with
      | none => rfl
      | some fid' =>
          simp only [listModify_getElem?]
          by_cases hf : fid = fid'
          · rw [if_pos hf]
            cases bp.frames[fid']? <;> simp
          · rw [if_neg hf]

/-- `setPage` never changes the replacer queue or the page table. -/
theorem setPage_queue_table (bp : BufferPoolManagerS) (pid : Nat) (pg : Page) :
    (bp.setPage pid pg).queue = bp.queue ∧
    (bp.setPage pid pg).page_frame_table = bp.page_frame_table := by
  unfold BufferPoolManagerS.setPage BufferPoolManagerS.frameIdOf
  cases alookup bp.page_frame_table pid <;> exact ⟨rfl, rfl⟩

/-- `unpin_page` never changes any resident page's bytes. -/
theorem unpin_page_pageOf (bp : BufferPoolManagerS) (q : Nat) (d : Bool)
    (bp₂ : BufferPoolManagerS) (h : bp.unpin_page q d = some bp₂) :
    ∀ pid : Nat, bp₂.pageOf pid = bp.pageOf pid := by
  intro pid
  obtain ⟨fid, fr, hlook, hv, rfl⟩ := unpin_page_eq bp q d bp₂ h
  unfold BufferPoolManagerS.pageOf BufferPoolManagerS.frameIdOf
  cases hq : alookup bp.page_frame_table pid with
  | none => rfl
  | some fid' =>
      simp only [Option.bind_eq_bind, Option.some_bind]
      by_cases hf : fid = fid'
      · subst hf
        rw [List.getElem?_set_eq_of_lt _ (by
          by_contra hge
          rw [List.getElem?_eq_none (by omega)] at hv
          exact absurd hv (by simp)), hv]
        simp
      · rw [List.getElem?_set_ne hf]

/-- `setPage` keeps the pool well-formed (it only rewrites page bytes). -/
theorem wf_setPage (bp : BufferPoolManagerS) (pid : Nat) (pg : Page) (wf : WfPool bp) :
    WfPool (bp.setPage pid pg) := by
  unfold BufferPoolManagerS.setPage BufferPoolManagerS.frameIdOf
  cases hlook : alookup bp.page_frame_table pid with
  | none => exact wf
  | some fid =>
      constructor
      · intro e he
        dsimp only at he ⊢
        rw [listModify_getElem?]
        by_cases hf : fid = e.2
        · rw [if_pos hf]
          have h := wf.tb e he
          cases hv : bp.frames[e.2]? with
          | none => rw [hv] at h; exact absurd h (by simp)
          | some fr => rw [hv] at h; simpa using h
        · rw [if_neg hf]
          exact wf.tb e he
      · intro i hi
        dsimp only at hi ⊢
        rw [listModify_length] at hi
        rw [listModify_getElem?]
        by_cases hf : fid = i
        · rw [if_pos hf]
          have h := wf.fb i hi
          cases hv : bp.frames[i]? with
          | none => rw [hv] at h; exact absurd h (by simp)
          | some fr => rw [hv] at h; simpa using h
        · rw [if_neg hf]
          exact wf.fb i hi
      · exact wf.qn
      · intro i hi
        dsimp only at hi ⊢
        rw [listModify_getElem?]
        by_cases hf : fid = i
        · rw [if_pos hf]
          have h := wf.qp i hi
          cases hv : bp.frames[i]? with
          | none => rw [hv] at h; exact absurd h (by simp)
          | some fr => rw [hv] at h; simpa using h
        · rw [if_neg hf]
          exact wf.qp i hi

/-- `unpin_page` keeps the pool well-formed. -/
theorem wf_unpin_page (bp : BufferPoolManagerS) (pid : Nat) (d : Bool)
    (bp₂ : BufferPoolManagerS) (wf : WfPool bp) (h : bp.unpin_page pid d = some bp₂) :
    WfPool bp₂ := by
  obtain ⟨fid, fr, hlook, hv, rfl⟩ := unpin_page_eq bp pid d bp₂ h
  have hflen : fid < bp.frames.length := by
    by_contra hge
    rw [List.getElem?_eq_none (by omega)] at hv
    exact absurd hv (by simp)
  constructor
  · intro e he
    dsimp only at he ⊢
    by_cases hf : fid = e.2
    · subst hf
      rw [List.getElem?_set_eq_of_lt _ hflen]
      have h := wf.tb e he
      rw [hv] at h
      simpa using h
    · rw [List.getElem?_set_ne hf]
      exact wf.tb e he
  · intro i hi
    dsimp only at hi ⊢
    rw [List.length_set] at hi
    by_cases hf : fid = i
    · subst hf
      rw [List.getElem?_set_eq_of_lt _ hflen]
      have h := wf.fb fid hi
      rw [hv] at h
      simpa using h
    · rw [List.getElem?_set_ne hf]
      exact wf.fb i hi
  · dsimp only
    by_cases hz : fr.pin_count - 1 = 0
    · rw [if_pos hz]
      unfold replacerUnpin
      refine List.Nodup.append (wf.qn.erase fid) (List.nodup_singleton fid) ?_
      rw [List.disjoint_singleton]
      intro hmem
      exact ((List.Nodup.mem_erase_iff wf.qn).1 hmem).1 rfl
    · rw [if_neg hz]
      exact wf.qn
  · intro i hi
    dsimp only at hi ⊢
    by_cases hz : fr.pin_count - 1 = 0
    · rw [if_pos hz] at hi
      unfold replacerUnpin at hi
      rcases List.mem_append.1 hi with hil | hir
      · have hik := (List.Nodup.mem_erase_iff wf.qn).1 hil
        rw [List.getElem?_set_ne (fun hh => hik.1 hh.symm)]
        exact wf.qp i hik.2
      · have : i = fid := by simpa using hir
        subst this
        rw [List.getElem?_set_eq_of_lt _ hflen]
        simpa using hz
    · rw [if_neg hz] at hi
      by_cases hf : fid = i
      · subst hf
        have h := wf.qp fid hi
        rw [hv] at h
        have : fr.pin_count = 0 := by simpa using h
        omega
      · rw [List.getElem?_set_ne hf]
        exact wf.qp i hi

/-- `read_page` keeps the pool well-formed in all three branches. -/
theorem wf_read_page (bp : BufferPoolManagerS) (pid : Nat) (bp₁ : BufferPoolManagerS)
    (wf : WfPool bp) (h : bp.read_page pid = some bp₁) : WfPool bp₁ := by
  rcases read_page_cases bp pid bp₁ h with
    ⟨fid, hlook, rfl⟩ | ⟨pg, hlook, hlen, hdisk, rfl⟩ |
    ⟨v, rest, victim, pg, hlook, hlen, hq, hv, hd, rfl⟩
  · constructor
    · intro e he
      dsimp only at he ⊢
      rw [listModify_getElem?]
      by_cases hf : fid = e.2
      · rw [if_pos hf]
        have h := wf.tb e he
        cases hv : bp.frames[e.2]? with
        | none => rw [hv] at h; exact absurd h (by simp)
        | some fr => rw [hv] at h; simpa using h
      · rw [if_neg hf]
        exact wf.tb e he
    · intro i hi
      dsimp only at hi ⊢
      rw [listModify_length] at hi
      rw [listModify_getElem?]
      by_cases hf : fid = i
      · rw [if_pos hf]
        have h := wf.fb i hi
        cases hv : bp.frames[i]? with
        | none => rw [hv] at h; exact absurd h (by simp)
        | some fr => rw [hv] at h; simpa using h
      · rw [if_neg hf]
        exact wf.fb i hi
    · exact wf.qn.erase fid
    · intro i hi
      dsimp only at hi ⊢
      have hik := (List.Nodup.mem_erase_iff wf.qn).1 hi
      rw [listModify_getElem?, if_neg (fun hh => hik.1 hh.symm)]
      exact wf.qp i hik.2
  · constructor
    · intro e he
      dsimp only at he ⊢
      rcases List.mem_cons.1 he with hhd | htl
      · subst hhd
        rw [List.getElem?_concat_length]
        rfl
      · have h := wf.tb e htl
        cases hv : bp.frames[e.2]? with
        | none => rw [hv] at h; exact absurd h (by simp)
        | some fr =>
            have hlt : e.2 < bp.frames.length := by
              by_contra hge
              rw [List.getElem?_eq_none (by omega)] at hv
              exact absurd hv (by simp)
            rw [List.getElem?_append_left hlt]
            exact h
    · intro i hi
      dsimp only at hi ⊢
      rw [List.length_append, List.length_singleton] at hi
      have hi' := List.mem_range.1 hi
      by_cases hf : i = bp.frames.length
      · subst hf
        rw [List.getElem?_concat_length]
        dsimp only [Option.bind_eq_bind, Option.some_bind]
        rw [alookup]
        simp
      · have hlt : i < bp.frames.length := by omega
        rw [List.getElem?_append_left hlt]
        have h := wf.fb i (List.mem_range.2 hlt)
        cases hv : bp.frames[i]? with
        | none => rw [hv] at h; exact absurd h (by simp)
        | some fr =>
            rw [hv] at h
            simp only [Option.some_bind] at h ⊢
            rw [alookup]
            have hne : ¬ fr.page_id = pid := by
              intro hid
              rw [hid] at h
              rw [hlook] at h
              exact absurd h (by simp)
            rw [if_neg (fun hh => hne hh.symm)]
            exact h
    · exact wf.qn.erase bp.frames.length
    · intro i hi
      dsimp only at hi ⊢
      have hik := (List.Nodup.mem_erase_iff wf.qn).1 hi
      have h := wf.qp i hik.2
      cases hv : bp.frames[i]? with
      | none => rw [hv] at h; exact absurd h (by simp)
      | some fr =>
          have hlt : i < bp.frames.length := by
            by_contra hge
            rw [List.getElem?_eq_none (by omega)] at hv
            exact absurd hv (by simp)
          rw [List.getElem?_append_left hlt, hv]
          rw [hv] at h
          exact h
  · have hvlen : v < bp.frames.length := by
      by_contra hge
      rw [List.getElem?_eq_none (by omega)] at hv
      exact absurd hv (by simp)
    have hvictim_look : alookup bp.page_frame_table victim.page_id = some v :=
      wf_frame_table wf hv
    have hvrest : v ∉ rest := by
      have := wf.qn
      rw [hq] at this
      exact (List.nodup_cons.1 this).1
    have hrestnd : rest.Nodup := by
      have := wf.qn
      rw [hq] at this
      exact (List.nodup_cons.1 this).2
    constructor
    · intro e he
      dsimp only at he ⊢
      rcases List.mem_cons.1 he with hhd | htl
      · subst hhd
        rw [List.getElem?_set_eq_of_lt _ hvlen]
        rfl
      · have hmem := List.mem_of_mem_filter htl
        have hpred : ¬ e.1 = victim.page_id := by
          have := List.of_mem_filter htl
          simpa using this
        have hev : ¬ e.2 = v := by
          intro hev
          have h := wf.tb e hmem
          rw [hev, hv] at h
          exact hpred (Option.some.inj h).symm
        rw [List.getElem?_set_ne (fun hh => hev hh.symm)]
        exact wf.tb e hmem
    · intro i hi
      dsimp only at hi ⊢
      rw [List.length_set] at hi
      by_cases hf : i = v
      · subst hf
        rw [List.getElem?_set_eq_of_lt _ hvlen]
        dsimp only [Option.bind_eq_bind, Option.some_bind]
        rw [alookup]
        simp
      · rw [List.getElem?_set_ne (fun hh => hf hh.symm)]
        have h := wf.fb i hi
        cases hvi : bp.frames[i]? with
        | none => rw [hvi] at h; exact absurd h (by simp)
        | some fr =>
            rw [hvi] at h
            simp only [Option.some_bind] at h ⊢
            rw [alookup]
            have hne : ¬ fr.page_id = pid := by
              intro hid
              rw [hid, hlook] at h
              exact absurd h (by simp)
            rw [if_neg (fun hh => hne hh.symm)]
            have hnev : ¬ fr.page_id = victim.page_id := by
              intro hid
              rw [hid, hvictim_look] at h
              exact hf (Option.some.inj h).symm
            rw [alookup_filter_ne _ _ _ hnev]
            exact h
    · exact hrestnd.erase v
    · intro i hi
      dsimp only at hi ⊢
      have hir : i ∈ rest := List.mem_of_mem_erase hi
      have hiv : ¬ i = v := fun hh => hvrest (hh ▸ hir)
      rw [List.getElem?_set_ne (fun hh => hiv hh.symm)]
      refine wf.qp i ?_
      rw [hq]
      exact List.mem_cons_of_mem _ hir

/-- A failed `alookup` means no entry carries the key. -/
theorem alookup_eq_none_mem (l : List (Nat × Nat)) :
    ∀ (k : Nat), alookup l k = none → ∀ v, (k, v) ∉ l := by
  induction l with
  | nil => intro k _ v; simp
  | cons e l ih =>
      intro k h v
      obtain ⟨a, b⟩ := e
      rw [alookup] at h
      by_cases hk : a = k
      · rw [if_pos hk] at h
        exact absurd h (by simp)
      · rw [if_neg hk] at h
        intro hmem
        rcases List.mem_cons.1 hmem with hhd | htl
        · injection hhd with h1 h2
          exact hk h1.symm
        · exact ih k h v htl

/-- Looking up the filtered-out key fails. -/
theorem alookup_filter_self (l : List (Nat × Nat)) :
    ∀ (k : Nat), alookup (l.filter (fun e => ¬ e.1 = k)) k = none := by
  induction l with
  | nil => intro k; simp [alookup]
  | cons e l ih =>
      intro k
      have ih' := ih k
      simp only [decide_not] at ih'
      obtain ⟨a, b⟩ := e
      rw [List.filter_cons]
      simp only [decide_not]
      by_cases hek : a = k
      · rw [if_neg (by simp [hek])]
        exact ih'
      · rw [if_pos (by simp [hek])]
        rw [alookup, if_neg hek]
        exact ih'

/-- After a successful `read_page`, the page is resident: its frame holds
it, is not in the replacer queue, and carries one more pin than before. -/
theorem read_page_resident (bp : BufferPoolManagerS) (pid : Nat)
    (bp₁ : BufferPoolManagerS) (wf : WfPool bp) (h : bp.read_page pid = some bp₁) :
    ∃ fid fr, bp₁.frameIdOf pid = some fid ∧ bp₁.frames[fid]? = some fr ∧
      fr.page_id = pid ∧ fid ∉ bp₁.queue ∧
      bp₁.pinCountOf pid = bp.pinCountOf pid + 1 := by
  rcases read_page_cases bp pid bp₁ h with
    ⟨fid, hlook, rfl⟩ | ⟨pg, hlook, hlen, hdisk, rfl⟩ |
    ⟨v, rest, victim, pg, hlook, hlen, hq, hv, hd, rfl⟩
  · obtain ⟨fr, hfr, hid⟩ := wf_table_frame wf hlook
    refine ⟨fid, { fr with pin_count := fr.pin_count + 1 }, ?_, ?_, hid, ?_, ?_⟩
    · exact hlook
    · dsimp only
      rw [listModify_getElem?, if_pos rfl, hfr]
      rfl
    · dsimp only
      intro hmem
      exact ((List.Nodup.mem_erase_iff wf.qn).1 hmem).1 rfl
    · unfold BufferPoolManagerS.pinCountOf BufferPoolManagerS.frameIdOf
      simp only [hlook]
      rw [listModify_getElem?, if_pos rfl, hfr]
      rfl
  · refine ⟨bp.frames.length, ⟨pg, pid, 1, false⟩, ?_, ?_, rfl, ?_, ?_⟩
    · unfold BufferPoolManagerS.frameIdOf
      dsimp only
      rw [alookup]
      simp
    · dsimp only
      exact List.getElem?_concat_length _ _
    · dsimp only
      intro hmem
      have hqf := wf.qp _ (List.mem_of_mem_erase hmem)
      rw [List.getElem?_eq_none (by omega)] at hqf
      exact absurd hqf (by simp)
    · unfold BufferPoolManagerS.pinCountOf BufferPoolManagerS.frameIdOf
      simp [hlook, alookup, List.getElem?_concat_length]
  · have hvlen : v < bp.frames.length := by
      by_contra hge
      rw [List.getElem?_eq_none (by omega)] at hv
      exact absurd hv (by simp)
    have hvrest : v ∉ rest := by
      have hn := wf.qn
      rw [hq] at hn
      exact (List.nodup_cons.1 hn).1
    refine ⟨v, ⟨pg, pid, 1, false⟩, ?_, ?_, rfl, ?_, ?_⟩
    · unfold BufferPoolManagerS.frameIdOf
      dsimp only
      rw [alookup]
      simp
    · dsimp only
      exact List.getElem?_set_eq_of_lt _ hvlen
    · dsimp only
      intro hmem
      exact hvrest (List.mem_of_mem_erase hmem)
    · unfold BufferPoolManagerS.pinCountOf BufferPoolManagerS.frameIdOf
      simp [hlook, alookup, List.getElem?_set_eq_of_lt _ hvlen]

/-- `read_page` never lowers any page's pin count (so it performs no
unpin): the only frame it can recycle is an unpinned victim. -/
theorem read_page_pin_mono (bp : BufferPoolManagerS) (pid : Nat)
    (bp₁ : BufferPoolManagerS) (wf : WfPool bp) (h : bp.read_page pid = some bp₁) :
    ∀ q : Nat, bp.pinCountOf q ≤ bp₁.pinCountOf q := by
  intro q
  by_cases hqp : q = pid
  · subst hqp
    obtain ⟨_, _, _, _, _, _, hpin⟩ := read_page_resident bp q bp₁ wf h
    omega
  · rcases read_page_cases bp pid bp₁ h with
      ⟨fid, hlook, rfl⟩ | ⟨pg, hlook, hlen, hdisk, rfl⟩ |
      ⟨v, rest, victim, pg, hlook, hlen, hq, hv, hd, rfl⟩
    · unfold BufferPoolManagerS.pinCountOf BufferPoolManagerS.frameIdOf
      dsimp only
      cases hlq : alookup bp.page_frame_table q with
      | none => simp
      | some fid_q =>
          dsimp only
          rw [listModify_getElem?]
          by_cases hf : fid = fid_q
          · rw [if_pos hf]
            cases bp.frames[fid_q]? <;> simp
          · rw [if_neg hf]
    · unfold BufferPoolManagerS.pinCountOf BufferPoolManagerS.frameIdOf
      dsimp only
      rw [alookup, if_neg (fun hh => hqp hh.symm)]
      cases hlq : alookup bp.page_frame_table q with
      | none => simp
      | some fid_q =>
          dsimp only
          by_cases hlt : fid_q < bp.frames.length
          · rw [List.getElem?_append_left hlt]
          · rw [List.getElem?_eq_none (l := bp.frames) (by omega)]
            simp
    · unfold BufferPoolManagerS.pinCountOf BufferPoolManagerS.frameIdOf
      dsimp only
      rw [alookup, if_neg (fun hh => hqp hh.symm)]
      by_cases hqv : q = victim.page_id
      · subst hqv
        rw [alookup_filter_self]
        have hlv : alookup bp.page_frame_table victim.page_id = some v :=
          wf_frame_table wf hv
        rw [hlv]
        dsimp only
        have hp := wf.qp v (by rw [hq]; exact List.mem_cons_self _ _)
        rw [hv] at hp
        simp at hp
        rw [hv]
        simp [hp]
      · rw [alookup_filter_ne _ _ _ hqv]
        cases hlq : alookup bp.page_frame_table q with
        | none => simp
        | some fid_q =>
            dsimp only
            have hlv : alookup bp.page_frame_table victim.page_id = some v :=
              wf_frame_table wf hv
            have hfv : ¬ fid_q = v := wf_fid_ne wf hlv hlq hqv
            rw [List.getElem?_set_ne (fun hh => hfv hh.symm)]

/-- `unpin_page` decrements the target's pin count and leaves every other
page's pin count alone. -/
theorem unpin_page_pin (bp : BufferPoolManagerS) (pid : Nat) (d : Bool)
    (bp₂ : BufferPoolManagerS) (wf : WfPool bp) (h : bp.unpin_page pid d = some bp₂) :
    bp₂.pinCountOf pid = bp.pinCountOf pid - 1 ∧
    ∀ q : Nat, ¬ q = pid → bp₂.pinCountOf q = bp.pinCountOf q := by
  obtain ⟨fid, fr, hlook, hv, rfl⟩ := unpin_page_eq bp pid d bp₂ h
  have hflen : fid < bp.frames.length := by
    by_contra hge
    rw [List.getElem?_eq_none (by omega)] at hv
    exact absurd hv (by simp)
  constructor
  · unfold BufferPoolManagerS.pinCountOf BufferPoolManagerS.frameIdOf
    simp only [hlook]
    rw [List.getElem?_set_eq_of_lt _ hflen, hv]
    rfl
  · intro q hq
    unfold BufferPoolManagerS.pinCountOf BufferPoolManagerS.frameIdOf
    dsimp only
    cases hlq : alookup bp.page_frame_table q with
    | none => rfl
    | some fid_q =>
        dsimp only
        have hfv : ¬ fid_q = fid := wf_fid_ne wf hlook hlq hq
        rw [List.getElem?_set_ne (fun hh => hfv hh.symm)]

/-- A `read_page` of a page already in the table always takes the
resident branch. -/
theorem read_page_hit (bp : BufferPoolManagerS) (pid fid : Nat)
    (hlook : alookup bp.page_frame_table pid = some fid) :
    bp.read_page pid = some { bp with
      frames := listModify bp.frames fid
        (fun f => { f with pin_count := f.pin_count + 1 }),
      queue := replacerPin bp.queue fid } := by
  unfold BufferPoolManagerS.read_page
  rw [hlook]

/-- Re-reading a resident page does not change its bytes. -/
theorem read_page_pageOf_resident (bp : BufferPoolManagerS) (pid : Nat) (pg : Page)
    (bp₁ : BufferPoolManagerS) (hpg : bp.pageOf pid = some pg)
    (h : bp.read_page pid = some bp₁) : bp₁.pageOf pid = some pg := by
  unfold BufferPoolManagerS.pageOf BufferPoolManagerS.frameIdOf at hpg
  cases hlook : alookup bp.page_frame_table pid with
  | none => rw [hlook] at hpg; exact absurd hpg (by simp)
  | some fid =>
      rw [hlook] at hpg
      simp only [Option.bind_eq_bind, Option.some_bind] at hpg
      cases hfr : bp.frames[fid]? with
      | none => rw [hfr] at hpg; exact absurd hpg (by simp)
      | some fr =>
          rw [hfr] at hpg
          rw [read_page_hit bp pid fid hlook] at h
          obtain rfl := Option.some.inj h
          unfold BufferPoolManagerS.pageOf BufferPoolManagerS.frameIdOf
          simp only [hlook, Option.bind_eq_bind, Option.some_bind]
          rw [listModify_getElem?, if_pos rfl, hfr]
          simpa using hpg

/-- A pinned frame for `pid` is untouched by a `read_page` of another
page: same frame, same contents, still out of the replacer queue. -/
theorem sticky_step_read (bp : BufferPoolManagerS) (q pid fid : Nat) (fr : Frame)
    (bp₁ : BufferPoolManagerS) (wf : WfPool bp) (hne : ¬ q = pid)
    (hlook : alookup bp.page_frame_table pid = some fid)
    (hfr : bp.frames[fid]? = some fr) (hnq : fid ∉ bp.queue)
    (h : bp.read_page q = some bp₁) :
    alookup bp₁.page_frame_table pid = some fid ∧ bp₁.frames[fid]? = some fr ∧
      fid ∉ bp₁.queue := by
  have hflen : fid < bp.frames.length := by
    by_contra hge
    rw [List.getElem?_eq_none (by omega)] at hfr
    exact absurd hfr (by simp)
  rcases read_page_cases bp q bp₁ h with
    ⟨fid_q, hlq, rfl⟩ | ⟨pg, hlq, hlen, hdisk, rfl⟩ |
    ⟨v, rest, victim, pg, hlq, hlen, hqq, hv, hd, rfl⟩
  · have hfv : ¬ fid_q = fid := wf_fid_ne wf hlook hlq hne
    refine ⟨hlook, ?_, ?_⟩
    · dsimp only
      rw [listModify_getElem?, if_neg hfv]
      exact hfr
    · dsimp only
      intro hmem
      exact hnq (List.mem_of_mem_erase hmem)
  · refine ⟨?_, ?_, ?_⟩
    · dsimp only
      rw [alookup, if_neg hne]
      exact hlook
    · dsimp only
      rw [List.getElem?_append_left hflen]
      exact hfr
    · dsimp only
      intro hmem
      exact hnq (List.mem_of_mem_erase hmem)
  · have hfid_v : ¬ fid = v := by
      intro hh
      apply hnq
      rw [hqq, hh]
      exact List.mem_cons_self _ _
    have hlv : alookup bp.page_frame_table victim.page_id = some v :=
      wf_frame_table wf hv
    have hpv : ¬ pid = victim.page_id := by
      intro hh
      rw [hh, hlv] at hlook
      exact hfid_v (Option.some.inj hlook).symm
    refine ⟨?_, ?_, ?_⟩
    · dsimp only
      rw [alookup, if_neg hne, alookup_filter_ne _ _ _ hpv]
      exact hlook
    · dsimp only
      rw [List.getElem?_set_ne (fun hh => hfid_v hh.symm)]
      exact hfr
    · dsimp only
      intro hmem
      apply hnq
      rw [hqq]
      exact List.mem_cons_of_mem _ (List.mem_of_mem_erase hmem)

/-- A pinned frame for `pid` is untouched by an `unpin_page` of another
page. -/
theorem sticky_step_unpin (bp : BufferPoolManagerS) (q : Nat) (d : Bool)
    (pid fid : Nat) (fr : Frame) (bp₂ : BufferPoolManagerS) (wf : WfPool bp)
    (hne : ¬ q = pid) (hlook : alookup bp.page_frame_table pid = some fid)
    (hfr : bp.frames[fid]? = some fr) (hnq : fid ∉ bp.queue)
    (h : bp.unpin_page q d = some bp₂) :
    alookup bp₂.page_frame_table pid = some fid ∧ bp₂.frames[fid]? = some fr ∧
      fid ∉ bp₂.queue := by
  obtain ⟨fid_q, fr_q, hlq, hvq, rfl⟩ := unpin_page_eq bp q d bp₂ h
  have hfv : ¬ fid_q = fid := wf_fid_ne wf hlook hlq hne
  refine ⟨hlook, ?_, ?_⟩
  · dsimp only
    rw [List.getElem?_set_ne hfv]
    exact hfr
  · dsimp only
    by_cases hz : fr_q.pin_count - 1 = 0
    · rw [if_pos hz]
      intro hmem
      rcases List.mem_append.1 hmem with hil | hir
      · exact hnq (List.mem_of_mem_erase hil)
      · exact hfv (by simpa using (List.mem_singleton.1 hir).symm)
    · rw [if_neg hz]
      exact hnq

/-- A frame pinned at least twice for `pid` survives any balanced sequence
of buffer-pool calls: it keeps holding `pid` with at least two pins and
never enters the replacer queue, hence is never an eviction victim. -/
theorem sticky_preserved (pid : Nat) : ∀ (ops : List PoolOp) (s : Nat)
    (bp : BufferPoolManagerS) (fid : Nat) (fr : Frame) (bp'' : BufferPoolManagerS),
    WfPool bp → alookup bp.page_frame_table pid = some fid →
    bp.frames[fid]? = some fr → fr.page_id = pid → fr.pin_count = s + 2 →
    fid ∉ bp.queue → balancedFor pid s ops = true → applyOps bp ops = some bp'' →
    ∃ s' fr', alookup bp''.page_frame_table pid = some fid ∧
      bp''.frames[fid]? = some fr' ∧ fr'.page_id = pid ∧ fr'.pin_count = s' + 2 ∧
      fid ∉ bp''.queue := by
  intro ops
  induction ops with
  | nil =>
      intro s bp fid fr bp'' _ hlook hfr hid hpin hnq _ happ
      rw [applyOps] at happ
      obtain rfl := Option.some.inj happ
      exact ⟨s, fr, hlook, hfr, hid, hpin, hnq⟩
  | cons op rest ih =>
      intro s bp fid fr bp'' wf hlook hfr hid hpin hnq hbal happ
      cases op with
      | readOp q =>
          rw [applyOps] at happ
          cases hr : bp.read_page q with
          | none => rw [hr] at happ; exact absurd happ (by simp)
          | some bp₁ =>
              rw [hr] at happ
              simp only [Option.some_bind] at happ
              by_cases hq : q = pid
              · subst hq
                have hr' := read_page_hit bp q fid hlook
                rw [hr'] at hr
                obtain rfl := Option.some.inj hr
                rw [show balancedFor q s (PoolOp.readOp q :: rest) =
                      if q = q then balancedFor q (s + 1) rest
                      else balancedFor q s rest from rfl, if_pos rfl] at hbal
                refine ih (s + 1) _ fid { fr with pin_count := fr.pin_count + 1 } bp''
                  (wf_read_page bp q _ wf hr') hlook ?_ hid ?_ ?_ hbal happ
                · dsimp only
                  rw [listModify_getElem?, if_pos rfl, hfr]
                  rfl
                · dsimp only
                  omega
                · dsimp only
                  intro hmem
                  exact ((List.Nodup.mem_erase_iff wf.qn).1 hmem).1 rfl
              · rw [show balancedFor pid s (PoolOp.readOp q :: rest) =
                      if q = pid then balancedFor pid (s + 1) rest
                      else balancedFor pid s rest from rfl, if_neg hq] at hbal
                obtain ⟨hl₁, hf₁, hq₁⟩ :=
                  sticky_step_read bp q pid fid fr bp₁ wf hq hlook hfr hnq hr
                exact ih s bp₁ fid fr bp'' (wf_read_page bp q bp₁ wf hr)
                  hl₁ hf₁ hid hpin hq₁ hbal happ
      | unpinOp q d =>
          rw [applyOps] at happ
          cases hr : bp.unpin_page q d with
          | none => rw [hr] at happ; exact absurd happ (by simp)
          | some bp₂ =>
              rw [hr] at happ
              simp only [Option.some_bind] at happ
              by_cases hq : q = pid
              · subst hq
                cases s with
                | zero =>
                    rw [show balancedFor q 0 (PoolOp.unpinOp q d :: rest) =
                          if q = q then false else balancedFor q 0 rest from rfl,
                        if_pos rfl] at hbal
                    exact absurd hbal (by simp)
                | succ s' =>
                    rw [show balancedFor q (s' + 1) (PoolOp.unpinOp q d :: rest) =
                          if q = q then balancedFor q s' rest
                          else balancedFor q (s' + 1) rest from rfl,
                        if_pos rfl] at hbal
                    obtain ⟨fid', fr', hlook', hfr', rfl⟩ :=
                      unpin_page_eq bp q d bp₂ hr
                    obtain rfl : fid = fid' := Option.some.inj (hlook.symm.trans hlook')
                    obtain rfl : fr = fr' := by
                      rw [hfr] at hfr'
                      exact Option.some.inj hfr'
                    have hflen : fid < bp.frames.length := by
                      by_contra hge
                      rw [List.getElem?_eq_none (by omega)] at hfr
                      exact absurd hfr (by simp)
                    have hnz : ¬ fr.pin_count - 1 = 0 := by omega
                    refine ih s' _ fid
                      { fr with pin_count := fr.pin_count - 1, is_dirty := fr.is_dirty || d }
                      bp'' (wf_unpin_page bp q d _ wf hr) hlook ?_ hid ?_ ?_ hbal happ
                    · dsimp only
                      rw [List.getElem?_set_eq_of_lt _ hflen]
                    · dsimp only
                      omega
                    · dsimp only
                      rw [if_neg hnz]
                      exact hnq
              · have hbal' : balancedFor pid s rest = true := by
                  cases s with
                  | zero =>
                      rw [show balancedFor pid 0 (PoolOp.unpinOp q d :: rest) =
                            if q = pid then false else balancedFor pid 0 rest from rfl,
                          if_neg hq] at hbal
                      exact hbal
                  | succ s' =>
                      rw [show balancedFor pid (s' + 1) (PoolOp.unpinOp q d :: rest) =
                            if q = pid then balancedFor pid s' rest
                            else balancedFor pid (s' + 1) rest from rfl,
                          if_neg hq] at hbal
                      exact hbal
                obtain ⟨hl₂, hf₂, hq₂⟩ :=
                  sticky_step_unpin bp q d pid fid fr bp₂ wf hq hlook hfr hnq hr
                exact ih s bp₂ fid fr bp'' (wf_unpin_page bp q d bp₂ wf hr)
                  hl₂ hf₂ hid hpin hq₂ hbal' happ

/-- The pin count of a resident page is its frame's pin count. -/
theorem pinCountOf_eq (bp : BufferPoolManagerS) (pid fid : Nat) (fr : Frame)
    (h1 : bp.frameIdOf pid = some fid) (h2 : bp.frames[fid]? = some fr) :
    bp.pinCountOf pid = fr.pin_count := by
  unfold BufferPoolManagerS.pinCountOf
  rw [h1]
  dsimp only
  rw [h2]
  rfl

/-- Full description of a non-failing undo-loop iteration at an Insert
record: the page is pinned, the unlogged inverse is applied in place, the
page is pinned a second time with no matching unpin, no log record is
produced (the log manager rides through unchanged in the result), and the
cursor moves to the record's `prev_lsn`. -/
theorem undoStep_insert_spec (logs : List Log) (tbl : List (Nat × Nat))
    (lm : LogManagerS) (bp : BufferPoolManagerS) (lsn idx : Nat) (log : Log)
    (il : InsertLog) (wf : WfPool bp)
    (h1 : alookup tbl lsn = some idx) (h2 : logs[idx]? = some log)
    (h3 : log.log_type = LogType.Insert il)
    (h4 : ¬ undoStep logs tbl lm bp lsn = UndoStepRes.fail) :
    ∃ bp₁ pg bp₃,
      bp.read_page il.page_id = some bp₁ ∧
      bp₁.pageOf il.page_id = some pg ∧
      (bp₁.setPage il.page_id
          (pg.rollback_insert il.slot_id none).1).read_page il.page_id = some bp₃ ∧
      undoStep logs tbl lm bp lsn = UndoStepRes.goto il.prev_lsn lm bp₃ ∧
      bp₃.pageOf il.page_id = some ((pg.rollback_insert il.slot_id none).1) ∧
      bp₃.pinCountOf il.page_id = bp.pinCountOf il.page_id + 2 ∧
      (∀ q : Nat, bp.pinCountOf q ≤ bp₃.pinCountOf q) ∧
      WfPool bp₃ ∧
      (∃ fid fr, bp₃.frameIdOf il.page_id = some fid ∧ bp₃.frames[fid]? = some fr ∧
        fr.page_id = il.page_id ∧ fr.pin_count = bp.pinCountOf il.page_id + 2 ∧
        fid ∉ bp₃.queue) := by
  unfold undoStep at h4 ⊢
  rw [h1] at h4 ⊢
  dsimp only at h4 ⊢
  rw [h2] at h4 ⊢
  dsimp only at h4 ⊢
  rw [h3] at h4 ⊢
  dsimp only at h4 ⊢
  cases hr1 : bp.read_page il.page_id with
  | none =>
      rw [hr1] at h4
      simp at h4
  | some bp₁ =>
      rw [hr1] at h4
      simp only [Option.bind_eq_bind, Option.some_bind] at h4
      cases hpg : bp₁.pageOf il.page_id with
      | none =>
          rw [hpg] at h4
          simp at h4
      | some pg =>
          rw [hpg] at h4
          simp only [Option.some_bind] at h4
          cases hr2 : (bp₁.setPage il.page_id
              (pg.rollback_insert il.slot_id none).1).read_page il.page_id with
          | none =>
              rw [hr2] at h4
              simp at h4
          | some bp₃ =>
              have wf₁ : WfPool bp₁ := wf_read_page bp il.page_id bp₁ wf hr1
              have wf₂ : WfPool (bp₁.setPage il.page_id
                  (pg.rollback_insert il.slot_id none).1) :=
                wf_setPage bp₁ il.page_id _ wf₁
              have wf₃ : WfPool bp₃ := wf_read_page _ il.page_id bp₃ wf₂ hr2
              obtain ⟨_, _, _, _, _, _, hpin1⟩ :=
                read_page_resident bp il.page_id bp₁ wf hr1
              obtain ⟨fid, fr, hfid3, hfr3, hid3, hnq3, hpin3⟩ :=
                read_page_resident _ il.page_id bp₃ wf₂ hr2
              have hpin2 := setPage_pinCountOf bp₁ il.page_id
                (pg.rollback_insert il.slot_id none).1 il.page_id
              have hpinEq : bp₃.pinCountOf il.page_id =
                  bp.pinCountOf il.page_id + 2 := by
                rw [hpin3, hpin2, hpin1]
              refine ⟨bp₁, pg, bp₃, rfl, hpg, hr2, ?_, ?_, hpinEq, ?_, wf₃, ?_⟩
              · simp only [Option.bind_eq_bind, Option.some_bind, hpg, hr2]
              · exact read_page_pageOf_resident _ il.page_id _ bp₃
                  (setPage_pageOf bp₁ il.page_id _ pg hpg) hr2
              · intro q
                calc bp.pinCountOf q ≤ bp₁.pinCountOf q :=
                      read_page_pin_mono bp il.page_id bp₁ wf hr1 q
                  _ = (bp₁.setPage il.page_id
                        (pg.rollback_insert il.slot_id none).1).pinCountOf q :=
                      (setPage_pinCountOf bp₁ il.page_id _ q).symm
                  _ ≤ bp₃.pinCountOf q :=
                      read_page_pin_mono _ il.page_id bp₃ wf₂ hr2 q
              · refine ⟨fid, fr, hfid3, hfr3, hid3, ?_, hnq3⟩
                rw [← pinCountOf_eq bp₃ il.page_id fid fr hfid3 hfr3]
                exact hpinEq

/-- Full description of one redo record: Insert and CompensateInsert pin
the page, re-apply their unlogged effect exactly when `page_lsn < lsn`,
and unpin (dirty iff applied); everything else is a no-op; the log
manager rides through unchanged. -/
theorem redoOne_spec (lm : LogManagerS) (bp : BufferPoolManagerS) (log : Log)
    (lm' : LogManagerS) (bp' : BufferPoolManagerS)
    (h : redoOne lm bp log = some (lm', bp')) :
    lm' = lm ∧
    ((∃ il, log.log_type = LogType.Insert il ∧ ∃ bp₁ pg,
        bp.read_page il.page_id = some bp₁ ∧ bp₁.pageOf il.page_id = some pg ∧
        ((pg.page_lsn < log.lsn ∧
            (bp₁.setPage il.page_id
              (pg.insert_tuple il.tuple none).1).unpin_page il.page_id true = some bp') ∨
         (¬ pg.page_lsn < log.lsn ∧ bp₁.unpin_page il.page_id false = some bp'))) ∨
     (∃ cl, log.log_type = LogType.CompensateInsert cl ∧ ∃ bp₁ pg,
        bp.read_page cl.page_id = some bp₁ ∧ bp₁.pageOf cl.page_id = some pg ∧
        ((pg.page_lsn < log.lsn ∧
            (bp₁.setPage cl.page_id
              (pg.rollback_insert cl.slot_id none).1).unpin_page cl.page_id true = some bp') ∨
         (¬ pg.page_lsn < log.lsn ∧ bp₁.unpin_page cl.page_id false = some bp'))) ∨
     ((∀ il, ¬ log.log_type = LogType.Insert il) ∧
      (∀ cl, ¬ log.log_type = LogType.CompensateInsert cl) ∧ bp' = bp)) := by
  obtain ⟨lsn0, ty⟩ := log
  cases ty with
  | Insert il =>
      unfold redoOne at h
      dsimp only at h
      cases hr1 : bp.read_page il.page_id with
      | none => rw [hr1] at h; exact absurd h (by simp)
      | some bp₁ =>
          rw [hr1] at h
          simp only [Option.bind_eq_bind, Option.some_bind] at h
          cases hpg : bp₁.pageOf il.page_id with
          | none => rw [hpg] at h; exact absurd h (by simp)
          | some pg =>
              rw [hpg] at h
              simp only [Option.some_bind] at h
              by_cases hlt : pg.page_lsn < lsn0
              · rw [if_pos hlt] at h
                dsimp only at h
                cases hup : (bp₁.setPage il.page_id
                    (pg.insert_tuple il.tuple none).1).unpin_page il.page_id true with
                | none => rw [hup] at h; exact absurd h (by simp)
                | some bp₃ =>
                    rw [hup] at h
                    simp only [Option.some_bind] at h
                    obtain ⟨h1, h2⟩ := Prod.mk.injEq .. ▸ Option.some.inj h
                    exact ⟨h1.symm, Or.inl ⟨il, rfl, bp₁, pg, hr1, hpg,
                      Or.inl ⟨hlt, h2 ▸ hup⟩⟩⟩
              · rw [if_neg hlt] at h
                dsimp only at h
                cases hup : bp₁.unpin_page il.page_id false with
                | none => rw [hup] at h; exact absurd h (by simp)
                | some bp₃ =>
                    rw [hup] at h
                    simp only [Option.some_bind] at h
                    obtain ⟨h1, h2⟩ := Prod.mk.injEq .. ▸ Option.some.inj h
                    exact ⟨h1.symm, Or.inl ⟨il, rfl, bp₁, pg, hr1, hpg,
                      Or.inr ⟨hlt, h2 ▸ hup⟩⟩⟩
  | CompensateInsert cl =>
      unfold redoOne at h
      dsimp only at h
      cases hr1 : bp.read_page cl.page_id with
      | none => rw [hr1] at h; exact absurd h (by simp)
      | some bp₁ =>
          rw [hr1] at h
          simp only [Option.bind_eq_bind, Option.some_bind] at h
          cases hpg : bp₁.pageOf cl.page_id with
          | none => rw [hpg] at h; exact absurd h (by simp)
          | some pg =>
              rw [hpg] at h
              simp only [Option.some_bind] at h
              by_cases hlt : pg.page_lsn < lsn0
              · rw [if_pos hlt] at h
                dsimp only at h
                cases hup : (bp₁.setPage cl.page_id
                    (pg.rollback_insert cl.slot_id none).1).unpin_page cl.page_id true with
                | none => rw [hup] at h; exact absurd h (by simp)
                | some bp₃ =>
                    rw [hup] at h
                    simp only [Option.some_bind] at h
                    obtain ⟨h1, h2⟩ := Prod.mk.injEq .. ▸ Option.some.inj h
                    exact ⟨h1.symm, Or.inr (Or.inl ⟨cl, rfl, bp₁, pg, hr1, hpg,
                      Or.inl ⟨hlt, h2 ▸ hup⟩⟩)⟩
              · rw [if_neg hlt] at h
                dsimp only at h
                cases hup : bp₁.unpin_page cl.page_id false with
                | none => rw [hup] at h; exact absurd h (by simp)
                | some bp₃ =>
                    rw [hup] at h
                    simp only [Option.some_bind] at h
                    obtain ⟨h1, h2⟩ := Prod.mk.injEq .. ▸ Option.some.inj h
                    exact ⟨h1.symm, Or.inr (Or.inl ⟨cl, rfl, bp₁, pg, hr1, hpg,
                      Or.inr ⟨hlt, h2 ▸ hup⟩⟩)⟩
  | Begin b =>
      unfold redoOne at h
      dsimp only at h
      obtain ⟨h1, h2⟩ := Prod.mk.injEq .. ▸ Option.some.inj h
      exact ⟨h1.symm, Or.inr (Or.inr ⟨(by intro il hh; cases hh),
        (by intro cl hh; cases hh), h2.symm⟩)⟩
  | Commit c =>
      unfold redoOne at h
      dsimp only at h
      obtain ⟨h1, h2⟩ := Prod.mk.injEq .. ▸ Option.some.inj h
      exact ⟨h1.symm, Or.inr (Or.inr ⟨(by intro il hh; cases hh),
        (by intro cl hh; cases hh), h2.symm⟩)⟩
  | Abort a =>
      unfold redoOne at h
      dsimp only at h
      obtain ⟨h1, h2⟩ := Prod.mk.injEq .. ▸ Option.some.inj h
      exact ⟨h1.symm, Or.inr (Or.inr ⟨(by intro il hh; cases hh),
        (by intro cl hh; cases hh), h2.symm⟩)⟩

/-- `read_page` preserves the recovery invariant: pages enter frames with
their on-disk bytes, and dirty write-back copies a frame whose `page_lsn`
already equals the original disk value. -/
theorem poolInv_read_page (disk₀ : List Page) (bp : BufferPoolManagerS) (pid : Nat)
    (bp₁ : BufferPoolManagerS) (inv : PoolInv disk₀ bp)
    (h : bp.read_page pid = some bp₁) : PoolInv disk₀ bp₁ := by
  rcases read_page_cases bp pid bp₁ h with
    ⟨fid, hlook, rfl⟩ | ⟨pg, hlook, hlen, hdisk, rfl⟩ |
    ⟨v, rest, victim, pg, hlook, hlen, hq, hv, hd, rfl⟩
  · constructor
    · exact inv.diskLsn
    · intro i fr hfr
      dsimp only at hfr
      rw [listModify_getElem?] at hfr
      by_cases hf : fid = i
      · rw [if_pos hf] at hfr
        cases hfi : bp.frames[i]? with
        | none => rw [hfi] at hfr; exact absurd hfr (by simp)
        | some fr0 =>
            rw [hfi] at hfr
            obtain rfl := Option.some.inj hfr
            exact inv.frameLsn i fr0 hfi
      · rw [if_neg hf] at hfr
        exact inv.frameLsn i fr hfr
    · intro e he
      dsimp only at he ⊢
      rw [listModify_getElem?]
      by_cases hf : fid = e.2
      · rw [if_pos hf]
        have h := inv.tableOk e he
        cases hfi : bp.frames[e.2]? with
        | none => rw [hfi] at h; exact absurd h (by simp)
        | some fr0 => rw [hfi] at h; simpa using h
      · rw [if_neg hf]
        exact inv.tableOk e he
  · constructor
    · exact inv.diskLsn
    · intro i fr hfr
      dsimp only at hfr
      by_cases hf : i = bp.frames.length
      · subst hf
        rw [List.getElem?_concat_length] at hfr
        obtain rfl := Option.some.inj hfr
        dsimp only
        rw [← inv.diskLsn pid, hdisk]
        rfl
      · have hlt : i < bp.frames.length := by
          by_contra hge
          rw [List.getElem?_eq_none (by
            rw [List.length_append, List.length_singleton]
            omega)] at hfr
          exact absurd hfr (by simp)
        rw [List.getElem?_append_left hlt] at hfr
        exact inv.frameLsn i fr hfr
    · intro e he
      dsimp only at he ⊢
      rcases List.mem_cons.1 he with hhd | htl
      · subst hhd
        rw [List.getElem?_concat_length]
        rfl
      · have h := inv.tableOk e htl
        cases hfi : bp.frames[e.2]? with
        | none => rw [hfi] at h; exact absurd h (by simp)
        | some fr0 =>
            have hlt : e.2 < bp.frames.length := by
              by_contra hge
              rw [List.getElem?_eq_none (by omega)] at hfi
              exact absurd hfi (by simp)
            rw [List.getElem?_append_left hlt]
            exact h
  · have hvlen : v < bp.frames.length := by
      by_contra hge
      rw [List.getElem?_eq_none (by omega)] at hv
      exact absurd hv (by simp)
    have hdiskLsn : ∀ q : Nat,
        (((if victim.is_dirty then bp.disk.set victim.page_id victim.page
           else bp.disk))[q]?).map Page.page_lsn = ((disk₀[q]?).map Page.page_lsn) := by
      intro q
      by_cases hdirty : victim.is_dirty
      · rw [if_pos hdirty]
        rw [List.getElem?_set]
        by_cases hqv : victim.page_id = q
        · subst hqv
          by_cases hrange : victim.page_id < bp.disk.length
          · rw [if_pos rfl, if_pos hrange]
            exact inv.frameLsn v victim hv
          · rw [if_pos rfl, if_neg hrange, ← inv.diskLsn victim.page_id,
              List.getElem?_eq_none (l := bp.disk) (by omega)]
        · rw [if_neg hqv]
          exact inv.diskLsn q
      · rw [if_neg hdirty]
        exact inv.diskLsn q
    constructor
    · intro q
      exact hdiskLsn q
    · intro i fr hfr
      dsimp only at hfr
      by_cases hf : i = v
      · subst hf
        rw [List.getElem?_set_eq_of_lt _ hvlen] at hfr
        obtain rfl := Option.some.inj hfr
        dsimp only
        rw [← hdiskLsn pid, hd]
        rfl
      · rw [List.getElem?_set_ne (fun hh => hf hh.symm)] at hfr
        exact inv.frameLsn i fr hfr
    · intro e he
      dsimp only at he ⊢
      rcases List.mem_cons.1 he with hhd | htl
      · subst hhd
        rw [List.getElem?_set_eq_of_lt _ hvlen]
        rfl
      · have hmem := List.mem_of_mem_filter htl
        have hpred : ¬ e.1 = victim.page_id := by
          have := List.of_mem_filter htl
          simpa using this
        have hev : ¬ e.2 = v := by
          intro hev
          have h := inv.tableOk e hmem
          rw [hev, hv] at h
          exact hpred (Option.some.inj h).symm
        rw [List.getElem?_set_ne (fun hh => hev hh.symm)]
        exact inv.tableOk e hmem

/-- `unpin_page` preserves the recovery invariant (no byte changes). -/
theorem poolInv_unpin_page (disk₀ : List Page) (bp : BufferPoolManagerS) (pid : Nat)
    (d : Bool) (bp₂ : BufferPoolManagerS) (inv : PoolInv disk₀ bp)
    (h : bp.unpin_page pid d = some bp₂) : PoolInv disk₀ bp₂ := by
  obtain ⟨fid, fr, hlook, hv, rfl⟩ := unpin_page_eq bp pid d bp₂ h
  constructor
  · exact inv.diskLsn
  · intro i fr' hfr
    dsimp only at hfr
    by_cases hf : fid = i
    · subst hf
      have hflen : fid < bp.frames.length := by
        by_contra hge
        rw [List.getElem?_eq_none (by omega)] at hv
        exact absurd hv (by simp)
      rw [List.getElem?_set_eq_of_lt _ hflen] at hfr
      obtain rfl := Option.some.inj hfr
      exact inv.frameLsn fid fr hv
    · rw [List.getElem?_set_ne hf] at hfr
      exact inv.frameLsn i fr' hfr
  · intro e he
    dsimp only at he ⊢
    by_cases hf : fid = e.2
    · have hflen : fid < bp.frames.length := by
        by_contra hge
        rw [List.getElem?_eq_none (by omega)] at hv
        exact absurd hv (by simp)
      rw [← hf, List.getElem?_set_eq_of_lt _ hflen]
      have h := inv.tableOk e he
      rw [← hf, hv] at h
      simpa using h
    · rw [List.getElem?_set_ne hf]
      exact inv.tableOk e he

/-- `setPage` with a page whose `page_lsn` matches the current resident
copy preserves the recovery invariant. -/
theorem poolInv_setPage (disk₀ : List Page) (bp : BufferPoolManagerS) (pid : Nat)
    (pg pg₀ : Page) (inv : PoolInv disk₀ bp) (hpg : bp.pageOf pid = some pg₀)
    (hlsn : pg.page_lsn = pg₀.page_lsn) : PoolInv disk₀ (bp.setPage pid pg) := by
  unfold BufferPoolManagerS.pageOf at hpg
  unfold BufferPoolManagerS.setPage
  cases hlook : bp.frameIdOf pid with
  | none => exact inv
  | some fid =>
      rw [hlook] at hpg
      simp only [Option.bind_eq_bind, Option.some_bind] at hpg
      cases hfr : bp.frames[fid]? with
      | none => rw [hfr] at hpg; exact absurd hpg (by simp)
      | some fr =>
          rw [hfr] at hpg
          obtain rfl : fr.page = pg₀ := by simpa using hpg
          constructor
          · exact inv.diskLsn
          · intro i fr' hfr'
            dsimp only at hfr'
            rw [listModify_getElem?] at hfr'
            by_cases hf : fid = i
            · rw [if_pos hf] at hfr'
              rw [← hf, hfr] at hfr'
              obtain rfl := Option.some.inj hfr'
              dsimp only
              rw [hlsn]
              exact inv.frameLsn fid fr hfr
            · rw [if_neg hf] at hfr'
              exact inv.frameLsn i fr' hfr'
          · intro e he
            dsimp only at he ⊢
            rw [listModify_getElem?]
            by_cases hf : fid = e.2
            · rw [if_pos hf]
              have h := inv.tableOk e he
              cases hfi : bp.frames[e.2]? with
              | none => rw [hfi] at h; exact absurd h (by simp)
              | some fr0 => rw [hfi] at h; simpa using h
            · rw [if_neg hf]
              exact inv.tableOk e he

/-- Under the recovery invariant, every resident page's `page_lsn` equals
the original on-disk value. -/
theorem poolInv_pageOf (disk₀ : List Page) (bp : BufferPoolManagerS) (pid : Nat)
    (pg : Page) (inv : PoolInv disk₀ bp) (hpg : bp.pageOf pid = some pg) :
    some pg.page_lsn = ((disk₀[pid]?).map Page.page_lsn) := by
  unfold BufferPoolManagerS.pageOf BufferPoolManagerS.frameIdOf at hpg
  cases hlook : alookup bp.page_frame_table pid with
  | none => rw [hlook] at hpg; exact absurd hpg (by simp)
  | some fid =>
      rw [hlook] at hpg
      simp only [Option.bind_eq_bind, Option.some_bind] at hpg
      cases hfr : bp.frames[fid]? with
      | none => rw [hfr] at hpg; exact absurd hpg (by simp)
      | some fr =>
          rw [hfr] at hpg
          obtain rfl : fr.page = pg := by simpa using hpg
          have hid := inv.tableOk (pid, fid) (alookup_mem _ _ _ hlook)
          rw [hfr] at hid
          have hid' : fr.page_id = pid := by simpa using hid
          rw [← hid']
          exact inv.frameLsn fid fr hfr

/-- One redo record keeps the pool well-formed. -/
theorem wf_redoOne (lm : LogManagerS) (bp : BufferPoolManagerS) (log : Log)
    (lm' : LogManagerS) (bp' : BufferPoolManagerS) (wf : WfPool bp)
    (h : redoOne lm bp log = some (lm', bp')) : WfPool bp' := by
  rcases (redoOne_spec lm bp log lm' bp' h).2 with
    ⟨il, _, bp₁, pg, hr, _, hcase⟩ | ⟨cl, _, bp₁, pg, hr, _, hcase⟩ | ⟨_, _, rfl⟩
  · rcases hcase with ⟨_, hup⟩ | ⟨_, hup⟩
    · exact wf_unpin_page _ _ _ _ (wf_setPage _ _ _ (wf_read_page _ _ _ wf hr)) hup
    · exact wf_unpin_page _ _ _ _ (wf_read_page _ _ _ wf hr) hup
  · rcases hcase with ⟨_, hup⟩ | ⟨_, hup⟩
    · exact wf_unpin_page _ _ _ _ (wf_setPage _ _ _ (wf_read_page _ _ _ wf hr)) hup
    · exact wf_unpin_page _ _ _ _ (wf_read_page _ _ _ wf hr) hup
  · exact wf

/-- One redo record keeps the recovery invariant: redo's effects go
through the unlogged page mutations, which never touch `page_lsn`. -/
theorem poolInv_redoOne (disk₀ : List Page) (lm : LogManagerS)
    (bp : BufferPoolManagerS) (log : Log) (lm' : LogManagerS)
    (bp' : BufferPoolManagerS) (inv : PoolInv disk₀ bp)
    (h : redoOne lm bp log = some (lm', bp')) : PoolInv disk₀ bp' := by
  rcases (redoOne_spec lm bp log lm' bp' h).2 with
    ⟨il, _, bp₁, pg, hr, hpg, hcase⟩ | ⟨cl, _, bp₁, pg, hr, hpg, hcase⟩ | ⟨_, _, rfl⟩
  · rcases hcase with ⟨_, hup⟩ | ⟨_, hup⟩
    · exact poolInv_unpin_page disk₀ _ _ _ _
        (poolInv_setPage disk₀ _ _ _ pg (poolInv_read_page disk₀ _ _ _ inv hr) hpg
          (insert_tuple_none_page_lsn pg il.tuple)) hup
    · exact poolInv_unpin_page disk₀ _ _ _ _ (poolInv_read_page disk₀ _ _ _ inv hr) hup
  · rcases hcase with ⟨_, hup⟩ | ⟨_, hup⟩
    · exact poolInv_unpin_page disk₀ _ _ _ _
        (poolInv_setPage disk₀ _ _ _ pg (poolInv_read_page disk₀ _ _ _ inv hr) hpg
          (rollback_insert_none_page_lsn pg cl.slot_id)) hup
    · exact poolInv_unpin_page disk₀ _ _ _ _ (poolInv_read_page disk₀ _ _ _ inv hr) hup
  · exact inv

/-- The whole redo pass preserves well-formedness and the invariant. -/
theorem redo_preserves (disk₀ : List Page) : ∀ (logs : List Log) (lm : LogManagerS)
    (bp : BufferPoolManagerS) (lm' : LogManagerS) (bp' : BufferPoolManagerS),
    WfPool bp → PoolInv disk₀ bp → recoveryRedo logs lm bp = some (lm', bp') →
    WfPool bp' ∧ PoolInv disk₀ bp' := by
  intro logs
  induction logs with
  | nil =>
      intro lm bp lm' bp' wf inv h
      rw [recoveryRedo] at h
      obtain ⟨h1, h2⟩ := Prod.mk.injEq .. ▸ Option.some.inj h
      exact ⟨h2 ▸ wf, h2 ▸ inv⟩
  | cons log rest ih =>
      intro lm bp lm' bp' wf inv h
      rw [recoveryRedo] at h
      cases hone : redoOne lm bp log with
      | none => rw [hone] at h; exact absurd h (by simp)
      | some r =>
          rw [hone] at h
          simp only [Option.bind_eq_bind, Option.some_bind] at h
          obtain ⟨lm₁, bp₁⟩ := r
          exact ih lm₁ bp₁ lm' bp' (wf_redoOne lm bp log lm₁ bp₁ wf hone)
            (poolInv_redoOne disk₀ lm bp log lm₁ bp₁ inv hone) h

/-- A `done` undo step leaves the state untouched. -/
theorem undoStep_done_eq (logs : List Log) (tbl : List (Nat × Nat))
    (lm : LogManagerS) (bp : BufferPoolManagerS) (lsn : Nat) (lm' : LogManagerS)
    (bp' : BufferPoolManagerS)
    (h : undoStep logs tbl lm bp lsn = UndoStepRes.done lm' bp') :
    lm' = lm ∧ bp' = bp := by
  unfold undoStep at h
  cases h1 : alookup tbl lsn with
  | none => rw [h1] at h; exact absurd h (by simp)
  | some idx =>
      rw [h1] at h
      dsimp only at h
      cases h2 : logs[idx]? with
      | none => rw [h2] at h; exact absurd h (by simp)
      | some log =>
          rw [h2] at h
          dsimp only at h
          obtain ⟨lsn0, ty⟩ := log
          cases ty with
          | Insert il =>
              dsimp only at h
              cases hp : (do
                  let bp₁ ← bp.read_page il.page_id
                  let page ← bp₁.pageOf il.page_id
                  (bp₁.setPage il.page_id
                    (page.rollback_insert il.slot_id none).1).read_page il.page_id :
                  Option BufferPoolManagerS) with
              | none => rw [hp] at h; exact absurd h (by simp)
              | some bp₃ => rw [hp] at h; exact absurd h (by simp)
          | Begin b =>
              dsimp only at h
              have := UndoStepRes.done.inj h
              exact ⟨this.1.symm, this.2.symm⟩
          | Commit c => exact absurd h (by simp)
          | Abort a => exact absurd h (by simp)
          | CompensateInsert cl => exact absurd h (by simp)

/-- A `goto` undo step preserves well-formedness and the invariant. -/
theorem undoStep_goto_preserves (disk₀ : List Page) (logs : List Log)
    (tbl : List (Nat × Nat)) (lm : LogManagerS) (bp : BufferPoolManagerS)
    (lsn : Nat) (wf : WfPool bp) (inv : PoolInv disk₀ bp) :
    ∀ (l' : Nat) (lm' : LogManagerS) (bp' : BufferPoolManagerS),
      undoStep logs tbl lm bp lsn = UndoStepRes.goto l' lm' bp' →
      WfPool bp' ∧ PoolInv disk₀ bp' := by
  intro l' lm' bp' h
  cases h1 : alookup tbl lsn with
  | none =>
      unfold undoStep at h
      rw [h1] at h
      exact absurd h (by simp)
  | some idx =>
      cases h2 : logs[idx]? with
      | none =>
          unfold undoStep at h
          rw [h1] at h
          dsimp only at h
          rw [h2] at h
          exact absurd h (by simp)
      | some log =>
          obtain ⟨lsn0, ty⟩ := log
          cases ty with
          | Insert il =>
              obtain ⟨bp₁, pg, bp₃, hr1, hpg, hr2, hres, _, _, _, _⟩ :=
                undoStep_insert_spec logs tbl lm bp lsn idx ⟨lsn0, .Insert il⟩ il wf
                  h1 h2 rfl (by rw [h]; intro hh; cases hh)
              rw [h] at hres
              obtain ⟨_, _, hbp⟩ := UndoStepRes.goto.inj hres
              refine ⟨hbp ▸ ?_, hbp ▸ ?_⟩
              · exact wf_read_page _ _ _ (wf_setPage _ _ _ (wf_read_page _ _ _ wf hr1)) hr2
              · exact poolInv_read_page disk₀ _ _ _
                  (poolInv_setPage disk₀ _ _ _ pg (poolInv_read_page disk₀ _ _ _ inv hr1)
                    hpg (rollback_insert_none_page_lsn pg il.slot_id)) hr2
          | Begin b =>
              unfold undoStep at h
              rw [h1] at h
              dsimp only at h
              rw [h2] at h
              dsimp only at h
              exact absurd h (by simp)
          | Commit c =>
              unfold undoStep at h
              rw [h1] at h
              dsimp only at h
              rw [h2] at h
              dsimp only at h
              obtain ⟨_, _, hbp⟩ := UndoStepRes.goto.inj h
              exact ⟨hbp ▸ wf, hbp ▸ inv⟩
          | Abort a =>
              unfold undoStep at h
              rw [h1] at h
              dsimp only at h
              rw [h2] at h
              dsimp only at h
              obtain ⟨_, _, hbp⟩ := UndoStepRes.goto.inj h
              exact ⟨hbp ▸ wf, hbp ▸ inv⟩
          | CompensateInsert cl =>
              unfold undoStep at h
              rw [h1] at h
              dsimp only at h
              rw [h2] at h
              dsimp only at h
              obtain ⟨_, _, hbp⟩ := UndoStepRes.goto.inj h
              exact ⟨hbp ▸ wf, hbp ▸ inv⟩

/-- The undo walk preserves well-formedness and the invariant. -/
theorem undoWalk_preserves (disk₀ : List Page) (logs : List Log)
    (tbl : List (Nat × Nat)) : ∀ (fuel lsn : Nat) (lm : LogManagerS)
    (bp : BufferPoolManagerS) (lm' : LogManagerS) (bp' : BufferPoolManagerS),
    WfPool bp → PoolInv disk₀ bp →
    undoWalk logs tbl fuel lsn lm bp = some (lm', bp') →
    WfPool bp' ∧ PoolInv disk₀ bp' := by
  intro fuel
  induction fuel with
  | zero =>
      intro lsn lm bp lm' bp' _ _ h
      rw [undoWalk] at h
      exact absurd h (by simp)
  | succ fuel ih =>
      intro lsn lm bp lm' bp' wf inv h
      rw [undoWalk] at h
      cases hstep : undoStep logs tbl lm bp lsn with
      | goto l₂ lm₂ bp₂ =>
          rw [hstep] at h
          obtain ⟨wf₂, inv₂⟩ :=
            undoStep_goto_preserves disk₀ logs tbl lm bp lsn wf inv l₂ lm₂ bp₂ hstep
          exact ih l₂ lm₂ bp₂ lm' bp' wf₂ inv₂ h
      | done lm₂ bp₂ =>
          rw [hstep] at h
          obtain ⟨h1, h2⟩ := Prod.mk.injEq .. ▸ Option.some.inj h
          obtain ⟨_, hbp⟩ := undoStep_done_eq logs tbl lm bp lsn lm₂ bp₂ hstep
          exact ⟨(h2 ▸ hbp) ▸ wf, (h2 ▸ hbp) ▸ inv⟩
      | fail =>
          rw [hstep] at h
          exact absurd h (by simp)

/-- The whole undo pass preserves well-formedness and the invariant. -/
theorem undoAll_preserves (disk₀ : List Page) (logs : List Log)
    (tbl : List (Nat × Nat)) : ∀ (att : List (Nat × Nat)) (lm : LogManagerS)
    (bp : BufferPoolManagerS) (lm' : LogManagerS) (bp' : BufferPoolManagerS),
    WfPool bp → PoolInv disk₀ bp → undoAll logs tbl att lm bp = some (lm', bp') →
    WfPool bp' ∧ PoolInv disk₀ bp' := by
  intro att
  induction att with
  | nil =>
      intro lm bp lm' bp' wf inv h
      rw [undoAll] at h
      obtain ⟨h1, h2⟩ := Prod.mk.injEq .. ▸ Option.some.inj h
      exact ⟨h2 ▸ wf, h2 ▸ inv⟩
  | cons e rest ih =>
      intro lm bp lm' bp' wf inv h
      obtain ⟨tid, last⟩ := e
      rw [undoAll] at h
      cases hone : undoOne logs tbl lm bp last with
      | none => rw [hone] at h; exact absurd h (by simp)
      | some r =>
          rw [hone] at h
          simp only [Option.bind_eq_bind, Option.some_bind] at h
          obtain ⟨lm₁, bp₁⟩ := r
          have hwalk : WfPool bp₁ ∧ PoolInv disk₀ bp₁ := by
            unfold undoOne at hone
            cases hl1 : alookup tbl last with
            | none => rw [hl1] at hone; exact absurd hone (by simp)
            | some idx =>
                rw [hl1] at hone
                simp only [Option.bind_eq_bind, Option.some_bind] at hone
                cases hl2 : logs[idx]? with
                | none => rw [hl2] at hone; exact absurd hone (by simp)
                | some log =>
                    rw [hl2] at hone
                    simp only [Option.some_bind] at hone
                    exact undoWalk_preserves disk₀ logs tbl (logs.length + 1) _
                      lm bp lm₁ bp₁ wf inv hone
          exact ih lm₁ bp₁ lm' bp' hwalk.1 hwalk.2 h

end Rdbms

namespace Rdbms

/-- `RecoveryManager::run` preserves well-formedness and the recovery
invariant: both passes only mutate pages through the unlogged paths. -/
theorem recoveryRun_poolInv (disk₀ : List Page) (lm : LogManagerS)
    (bp : BufferPoolManagerS) (maxT : Nat) (lm' : LogManagerS)
    (bp' : BufferPoolManagerS) (wf : WfPool bp) (inv : PoolInv disk₀ bp)
    (h : recoveryRun lm bp = some (maxT, lm', bp')) :
    WfPool bp' ∧ PoolInv disk₀ bp' := by
  unfold recoveryRun at h
  cases hlogs : lm.read with
  | none => rw [hlogs] at h; exact absurd h (by simp)
  | some logs =>
      rw [hlogs] at h
      simp only [Option.bind_eq_bind, Option.some_bind] at h
      rcases hA : analyzeLogs logs with ⟨att, maxT₀⟩
      rw [hA] at h
      dsimp only at h
      cases hredo : recoveryRedo logs lm bp with
      | none => rw [hredo] at h; exact absurd h (by simp)
      | some r₁ =>
          obtain ⟨lm₁, bp₁⟩ := r₁
          rw [hredo] at h
          simp only [Option.some_bind] at h
          cases hundo : recoveryUndo logs att lm₁ bp₁ with
          | none => rw [hundo] at h; exact absurd h (by simp)
          | some r₂ =>
              obtain ⟨lm₂, bp₂⟩ := r₂
              rw [hundo] at h
              simp only [Option.some_bind] at h
              simp only [Option.some.injEq, Prod.mk.injEq] at h
              obtain ⟨_, _, rfl⟩ := h
              obtain ⟨wf₁, inv₁⟩ := redo_preserves disk₀ logs lm bp lm₁ bp₁ wf inv hredo
              exact undoAll_preserves disk₀ logs (buildLsnTable logs) att lm₁ bp₁
                lm₂ bp₂ wf₁ inv₁ hundo

/-- `listModify` at an occupied index is `List.set` of the mapped element. -/
theorem listModify_eq_set (l : List Frame) :
    ∀ (i : Nat) (f : Frame → Frame) (a : Frame), l[i]? = some a →
      listModify l i f = l.set i (f a) := by
  induction l with
  | nil => intro i f a h; simp at h
  | cons x xs ih =>
      intro i f a h
      cases i with
      | zero =>
          simp at h
          rw [h]
          rfl
      | succ i =>
          simp at h
          simp [listModify, ih i f a h]

/-- Reading a resident page and unpinning it clean returns the page's
cached bytes and restores the frames, the page table and the data file
exactly (only the replacer queue may change). -/
theorem resident_read_unpin (bp : BufferPoolManagerS) (pid fid : Nat) (fr : Frame)
    (hfid : alookup bp.page_frame_table pid = some fid)
    (hfr : bp.frames[fid]? = some fr) :
    ∃ bp₁ bp₂,
      bp.read_page pid = some bp₁ ∧
      bp₁.pageOf pid = some fr.page ∧
      bp₁.unpin_page pid false = some bp₂ ∧
      bp₂.frames = bp.frames ∧
      bp₂.page_frame_table = bp.page_frame_table ∧
      bp₂.disk = bp.disk := by
  have hlt : fid < bp.frames.length := by
    by_contra hc
    rw [List.getElem?_eq_none (by omega)] at hfr
    cases hfr
  have hread := read_page_hit bp pid fid hfid
  rw [listModify_eq_set bp.frames fid _ fr hfr] at hread
  have hfr₁ : (bp.frames.set fid { fr with pin_count := fr.pin_count + 1 })[fid]?
      = some { fr with pin_count := fr.pin_count + 1 } :=
    List.getElem?_set_eq_of_lt _ hlt
  have hpg : ({ bp with
      frames := bp.frames.set fid { fr with pin_count := fr.pin_count + 1 },
      queue := replacerPin bp.queue fid } : BufferPoolManagerS).pageOf pid
      = some fr.page := by
    unfold BufferPoolManagerS.pageOf BufferPoolManagerS.frameIdOf
    dsimp only
    rw [hfid]
    simp only [Option.bind_eq_bind, Option.some_bind]
    rw [hfr₁]
    simp only [Option.some_bind]
  have hunpin : ({ bp with
      frames := bp.frames.set fid { fr with pin_count := fr.pin_count + 1 },
      queue := replacerPin bp.queue fid } : BufferPoolManagerS).unpin_page pid false
      = some { bp with
          frames := bp.frames,
          queue := if fr.pin_count = 0
                   then replacerUnpin (replacerPin bp.queue fid) fid
                   else replacerPin bp.queue fid } := by
    unfold BufferPoolManagerS.unpin_page
    dsimp only
    rw [hfid]
    simp only [Option.bind_eq_bind, Option.some_bind]
    rw [hfr₁]
    simp only [Option.some_bind]
    rw [List.set_set]
    simp only [Nat.add_sub_cancel, Bool.or_false]
    rw [set_getElem?_id bp.frames fid fr hfr]
  exact ⟨_, _, hread, hpg, hunpin, rfl, rfl, rfl⟩

/-- `poolTuples` only looks at the page table and the frames. -/
theorem poolTuples_congr (bp bp' : BufferPoolManagerS)
    (ht : bp'.page_frame_table = bp.page_frame_table)
    (hf : bp'.frames = bp.frames) : ∀ q, poolTuples bp' q = poolTuples bp q := by
  intro q
  unfold poolTuples BufferPoolManagerS.pageOf BufferPoolManagerS.frameIdOf
  rw [ht, hf]

/-- The resident page's tuples are what `poolTuples` reports. -/
theorem poolTuples_resident (bp : BufferPoolManagerS) (pid fid : Nat) (fr : Frame)
    (hfid : alookup bp.page_frame_table pid = some fid)
    (hfr : bp.frames[fid]? = some fr) :
    poolTuples bp pid = fr.page.read_tuples := by
  unfold poolTuples BufferPoolManagerS.pageOf BufferPoolManagerS.frameIdOf
  rw [hfid]
  simp only [Option.bind_eq_bind, Option.some_bind]
  rw [hfr]
  rfl

/-- `Database::read_all`'s loop over pages already resident: it succeeds,
restores the frames, the table and the data file, and returns the
concatenation of the resident pages' tuples in page order. -/
theorem readAllLoop_resident (last : Nat) : ∀ (k pid : Nat) (bp : BufferPoolManagerS),
    pid + k = last →
    (∀ q, pid ≤ q → q ≤ last → ∃ fid fr,
        alookup bp.page_frame_table q = some fid ∧ bp.frames[fid]? = some fr) →
    ∃ vals bp', readAllLoop (k + 1) bp last pid = some (vals, bp') ∧
      bp'.frames = bp.frames ∧ bp'.page_frame_table = bp.page_frame_table ∧
      bp'.disk = bp.disk ∧
      vals = ((List.range' pid (k + 1)).map (poolTuples bp)).flatten := by
  intro k
  induction k with
  | zero =>
      intro pid bp hlast hres
      obtain ⟨fid, fr, hfid, hfr⟩ := hres pid (Nat.le_refl pid) (by omega)
      obtain ⟨bp₁, bp₂, hread, hpg, hunpin, hf, ht, hd⟩ :=
        resident_read_unpin bp pid fid fr hfid hfr
      refine ⟨fr.page.read_tuples, bp₂, ?_, hf, ht, hd, ?_⟩
      · rw [readAllLoop]
        rw [hread]
        simp only [Option.bind_eq_bind, Option.some_bind]
        rw [hpg]
        simp only [Option.some_bind]
        rw [hunpin]
        simp only [Option.some_bind]
        rw [if_neg (show ¬ last > pid by omega)]
      · simp only [Nat.zero_add, List.range'_one, List.map_cons, List.map_nil,
                   List.flatten_cons, List.flatten_nil, List.append_nil]
        exact (poolTuples_resident bp pid fid fr hfid hfr).symm
  | succ k ih =>
      intro pid bp hlast hres
      obtain ⟨fid, fr, hfid, hfr⟩ := hres pid (Nat.le_refl pid) (by omega)
      obtain ⟨bp₁, bp₂, hread, hpg, hunpin, hf, ht, hd⟩ :=
        resident_read_unpin bp pid fid fr hfid hfr
      obtain ⟨vals', bp', hrec, hf', ht', hd', hv'⟩ :=
        ih (pid + 1) bp₂ (by omega) (by
          intro q hq1 hq2
          rw [ht, hf]
          exact hres q (by omega) hq2)
      refine ⟨fr.page.read_tuples ++ vals', bp', ?_, hf' ▸ hf, ht' ▸ ht, hd' ▸ hd, ?_⟩
      · rw [readAllLoop]
        rw [hread]
        simp only [Option.bind_eq_bind, Option.some_bind]
        rw [hpg]
        simp only [Option.some_bind]
        rw [hunpin]
        simp only [Option.some_bind]
        rw [if_pos (show last > pid by omega)]
        rw [hrec]
        simp only [Option.some_bind]
      · rw [hv', List.map_congr_left (fun q _ => poolTuples_congr bp bp₂ ht hf q),
            show List.range' pid (k + 1 + 1) = pid :: List.range' (pid + 1) (k + 1) from
              List.range'_succ pid (k + 1) 1,
            List.map_cons, List.flatten_cons,
            poolTuples_resident bp pid fid fr hfid hfr]

/-- C8: for every log record of every variant and all byte values of its
fields, `deserialize (serialize r)` returns `r` together with a consumed
size equal to the length of the serialized bytes, which is 3 for
Begin/Commit/Abort, 7 for Insert and 6 for CompensateInsert. -/
theorem c8_serialize_roundtrip (l : Log) :
    Log.deserialize (Log.serialize l) = some (l, (Log.serialize l).length) ∧
    (Log.serialize l).length = logSize l.log_type := by
  obtain ⟨lsn, t⟩ := l
  cases t with
  | Begin b => exact ⟨rfl, rfl⟩
  | Commit c => exact ⟨rfl, rfl⟩
  | Abort a => exact ⟨rfl, rfl⟩
  | Insert i => exact ⟨rfl, rfl⟩
  | CompensateInsert c => exact ⟨rfl, rfl⟩

/-- C1: the claim's own interleaved scenario (t1 and t2 both insert, only
t1 commits, crash, reload) does return [10]; but the durability contract
"every committed tuple survives any subsequent crash" is violated by the
code: after init; t1 inserts 10; commit(t1); t2 inserts 30; abort(t2);
crash; load — `read_all()` is empty, losing committed tuple 10 (the
duplicated `rollback_insert` in `Database::abort` logs two CLRs for one
Insert, and redo replays both, removing the committed tuple as well). -/
theorem c1_commit_durability : runC1Interleaved = some [10] ∧
    runC1AfterAbortCrash = some [] ∧ ¬ runC1AfterAbortCrash = some [10] := by
  refine ⟨by decide, by decide, by decide⟩

/-- C2: after init; begin; insert 10; commit; begin; insert 30; abort, the
code's `read_all()` returns [] — not [10] as the claim states: the
duplicated `rollback_insert` call in `Database::abort` decrements the
tuple count twice, deleting the committed tuple 10 as well. -/
theorem c2_abort_loses_committed_tuple : readAllAfterAbort = some [] ∧
    ¬ readAllAfterAbort = some [10] := by
  refine ⟨by decide, by decide⟩

/-- C3: in the abort of t2 (records Begin lsn 3, Insert lsn 4), the code
emits TWO CompensateInsert records for the single Insert, and both carry
`next_compenstate_lsn = 4` — the Insert's own LSN, obtained from
`logs[i + 1]` with the reversed enumeration index applied to the
forward-order list — not the Insert's `prev_lsn` 3 as the claim states;
then Abort follows. -/
theorem c3_abort_emits_two_clrs_with_wrong_next_lsn :
    abortedTxnLogs = some
      [⟨3, .Begin ⟨1⟩⟩, ⟨4, .Insert ⟨3, 1, 0, 1, 30⟩⟩,
       ⟨5, .CompensateInsert ⟨4, 1, 0, 1⟩⟩, ⟨6, .CompensateInsert ⟨4, 1, 0, 1⟩⟩,
       ⟨7, .Abort ⟨1⟩⟩] := by
  decide

/-- C4 counterexample: redoing an Insert record with `slot_id = 3` and
tuple 7 over a zeroed page (tuple_count 0, page_lsn 0 < 5) writes the
tuple at the page's current count — slot 0, byte 3 — and leaves slot 3
(byte 6) untouched, refuting "writes the record's tuple at the record's
slot"; the count is incremented to 1. -/
theorem c4_redo_ignores_record_slot :
    (c4PageAfterRedo.map (fun p => p.bytes.getD 3 0)) = some 7 ∧
    (c4PageAfterRedo.map (fun p => p.bytes.getD 6 0)) = some 0 ∧
    (c4PageAfterRedo.map Page.tuple_length) = some 1 := by
  refine ⟨by decide, by decide, by decide⟩

/-- C5 counterexample: with `c5Logs`, the undo-walk cursor standing on the
CompensateInsert with LSN 1 (whose `next_compenstate_lsn` is 0) is NOT
moved to 0: the loop body's `_ => {}` arm leaves the cursor at 1
unchanged, and consequently the whole undo of loser 0 (last_lsn 2, whose
Insert points back to LSN 1) never reaches Begin — it spins forever,
modelled as fuel exhaustion. -/
theorem c5_mid_walk_clr_not_skipped :
    undoStep c5Logs (buildLsnTable c5Logs) LogManagerS.init freshPoolOnePage 1 =
      .goto 1 LogManagerS.init freshPoolOnePage ∧
    ¬ undoStep c5Logs (buildLsnTable c5Logs) LogManagerS.init freshPoolOnePage 1 =
      .goto 0 LogManagerS.init freshPoolOnePage ∧
    recoveryUndo c5Logs [(0, 2)] LogManagerS.init freshPoolOnePage = none := by
  refine ⟨by decide, by decide, by decide⟩

/-- C6 counterexample: reloading a log file whose records carry LSNs 0 and
1 sets `current_lsn` to 1 (the last persisted LSN, not 2), so the first
record appended after the restart is stamped with LSN 1 — a value already
assigned to a different persisted record, refuting both "resume from
last_persisted_lsn + 1" and "no LSN value is ever assigned to two
different records across restarts". -/
theorem c6_load_reuses_last_lsn : c6NextLsn = some 1 ∧ ¬ c6NextLsn = some 2 ∧
    ((readLogs c6File).map (fun ls => ls.map Log.lsn)) = some [0, 1] := by
  refine ⟨by decide, by decide, by decide⟩

/-- C7 counterexample: after init; begin; insert 10; commit; crash; load,
recovery's redo applies the Insert with LSN 1 to page 0 (its tuple count
becomes 1 and slot 0 holds 10), yet the resident page's `page_lsn` is
still 0 — redo applies effects through the `None`-transaction path, which
never stamps `page_lsn` — refuting "page_lsn equals the LSN of the latest
durable redo-or-undo record whose effect was applied". -/
theorem c7_page_lsn_not_updated_by_recovery :
    (pageAfterSimpleRecovery.map Page.page_lsn) = some 0 ∧
    ¬ (pageAfterSimpleRecovery.map Page.page_lsn) = some 1 ∧
    (pageAfterSimpleRecovery.map Page.tuple_length) = some 1 ∧
    (pageAfterSimpleRecovery.map (fun p => p.bytes.getD 3 0)) = some 10 := by
  refine ⟨by decide, by decide, by decide, by decide⟩

/-- C4 amended: for every record processed by redo — the effect is
re-applied to the pinned page iff `page_lsn < record.lsn`; an Insert
writes the record's tuple at the page's CURRENT `tuple_count` slot
(slot `tuple_count`, i.e. byte `tuple_count + 3`, ignoring the record's
`slot_id`) and increments the count; a CLR left-shifts and decrements;
redo emits no log record (the log manager is returned unchanged);
Begin, Commit and Abort are no-ops. -/
theorem c4_redo_characterization :
    (∀ (lm : LogManagerS) (bp : BufferPoolManagerS) (log : Log) (lm' : LogManagerS)
        (bp' : BufferPoolManagerS), redoOne lm bp log = some (lm', bp') → lm' = lm) ∧
    (∀ (lm : LogManagerS) (bp : BufferPoolManagerS) (log : Log) (il : InsertLog)
        (lm' : LogManagerS) (bp' : BufferPoolManagerS),
      log.log_type = LogType.Insert il → redoOne lm bp log = some (lm', bp') →
      ∃ bp₁ pg, bp.read_page il.page_id = some bp₁ ∧ bp₁.pageOf il.page_id = some pg ∧
        bp'.pageOf il.page_id =
          some (if pg.page_lsn < log.lsn then (pg.insert_tuple il.tuple none).1 else pg)) ∧
    (∀ (lm : LogManagerS) (bp : BufferPoolManagerS) (log : Log) (cl : CompensateInsertLog)
        (lm' : LogManagerS) (bp' : BufferPoolManagerS),
      log.log_type = LogType.CompensateInsert cl → redoOne lm bp log = some (lm', bp') →
      ∃ bp₁ pg, bp.read_page cl.page_id = some bp₁ ∧ bp₁.pageOf cl.page_id = some pg ∧
        bp'.pageOf cl.page_id =
          some (if pg.page_lsn < log.lsn then (pg.rollback_insert cl.slot_id none).1
                else pg)) ∧
    (∀ (lm : LogManagerS) (bp : BufferPoolManagerS) (log : Log) (lm' : LogManagerS)
        (bp' : BufferPoolManagerS),
      (∀ il, ¬ log.log_type = LogType.Insert il) →
      (∀ cl, ¬ log.log_type = LogType.CompensateInsert cl) →
      redoOne lm bp log = some (lm', bp') → bp' = bp) ∧
    (∀ (p : Page) (t : Nat), p.bytes.length = 16 → p.tuple_length ≤ 12 →
      ((p.insert_tuple t none).1).bytes.getD (p.tuple_length + 3) 0 = t ∧
      ((p.insert_tuple t none).1).tuple_length = p.tuple_length + 1) := by
  refine ⟨?_, ?_, ?_, ?_, ?_⟩
  · intro lm bp log lm' bp' h
    exact (redoOne_spec lm bp log lm' bp' h).1
  · intro lm bp log il lm' bp' hty h
    rcases (redoOne_spec lm bp log lm' bp' h).2 with
      ⟨il', hty', bp₁, pg, hr, hpg, hcase⟩ | ⟨cl', hty', _⟩ | ⟨hno, _, _⟩
    · rw [hty] at hty'
      obtain rfl := LogType.Insert.inj hty'
      refine ⟨bp₁, pg, hr, hpg, ?_⟩
      rcases hcase with ⟨hlt, hup⟩ | ⟨hlt, hup⟩
      · rw [if_pos hlt]
        rw [unpin_page_pageOf _ _ _ _ hup il.page_id]
        exact setPage_pageOf bp₁ il.page_id _ pg hpg
      · rw [if_neg hlt]
        rw [unpin_page_pageOf _ _ _ _ hup il.page_id]
        exact hpg
    · rw [hty] at hty'
      cases hty'
    · exact absurd hty (hno il)
  · intro lm bp log cl lm' bp' hty h
    rcases (redoOne_spec lm bp log lm' bp' h).2 with
      ⟨il', hty', _⟩ | ⟨cl', hty', bp₁, pg, hr, hpg, hcase⟩ | ⟨_, hno, _⟩
    · rw [hty] at hty'
      cases hty'
    · rw [hty] at hty'
      obtain rfl := LogType.CompensateInsert.inj hty'
      refine ⟨bp₁, pg, hr, hpg, ?_⟩
      rcases hcase with ⟨hlt, hup⟩ | ⟨hlt, hup⟩
      · rw [if_pos hlt]
        rw [unpin_page_pageOf _ _ _ _ hup cl.page_id]
        exact setPage_pageOf bp₁ cl.page_id _ pg hpg
      · rw [if_neg hlt]
        rw [unpin_page_pageOf _ _ _ _ hup cl.page_id]
        exact hpg
    · exact absurd hty (hno cl)
  · intro lm bp log lm' bp' hni hnc h
    rcases (redoOne_spec lm bp log lm' bp' h).2 with
      ⟨il', hty', _⟩ | ⟨cl', hty', _⟩ | ⟨_, _, hbp⟩
    · exact absurd hty' (hni il')
    · exact absurd hty' (hnc cl')
    · exact hbp
  · intro p t hlen hcount
    unfold Page.tuple_length at hcount
    unfold Page.insert_tuple Page.tuple_length
    dsimp only
    constructor
    · rw [List.getD_eq_getElem?_getD, List.getElem?_set_ne (by omega),
        List.getElem?_set_eq_of_lt]
      · rfl
      · rw [hlen]
        omega
    · rw [List.getD_eq_getElem?_getD, List.getElem?_set_eq_of_lt]
      · simp only [Option.getD_some]
        rw [Nat.mod_eq_of_lt (by omega)]
      · rw [List.length_set, hlen]
        omega

/-- Witness for `c4_redo_characterization`: redoing `c4Record` (slot_id 3,
tuple 7, LSN 5) over the zeroed resident page 0. -/
theorem c4_redo_characterization_witness :
    (∃ bp₁ pg, freshPoolOnePage.read_page 0 = some bp₁ ∧ bp₁.pageOf 0 = some pg ∧
       c4BpAfter.pageOf 0 =
         some (if pg.page_lsn < c4Record.lsn then (pg.insert_tuple 7 none).1 else pg)) ∧
    (Page.init 0).bytes.length = 16 ∧
    ((Page.init 0).insert_tuple 7 none).1.tuple_length = (Page.init 0).tuple_length + 1 := by
  refine ⟨?_, by decide, ?_⟩
  · exact c4_redo_characterization.2.1 LogManagerS.init freshPoolOnePage c4Record
      ⟨0, 0, 0, 3, 7⟩ LogManagerS.init c4BpAfter rfl (by decide)
  · exact (c4_redo_characterization.2.2.2.2 (Page.init 0) 7 (by decide) (by decide)).2

/-- C5 amended: one iteration of the undo walk — an Insert applies the
unlogged inverse to the pinned page (no CLR) and moves the cursor to
`prev_lsn`; Begin terminates; ANY other record (CompensateInsert included)
leaves the cursor unchanged, so the walk does not progress past it; the
CompensateInsert skip via `next_undo_lsn` happens only once, before the
loop, for the record at the loser's `last_lsn`. -/
theorem c5_undo_walk_characterization :
    (∀ (logs : List Log) (tbl : List (Nat × Nat)) (lm : LogManagerS)
        (bp : BufferPoolManagerS) (lsn idx : Nat) (log : Log) (il : InsertLog),
      alookup tbl lsn = some idx → logs[idx]? = some log →
      log.log_type = LogType.Insert il → WfPool bp →
      ¬ undoStep logs tbl lm bp lsn = UndoStepRes.fail →
      ∃ bp₁ pg bp₃, bp.read_page il.page_id = some bp₁ ∧
        bp₁.pageOf il.page_id = some pg ∧
        undoStep logs tbl lm bp lsn = UndoStepRes.goto il.prev_lsn lm bp₃ ∧
        bp₃.pageOf il.page_id = some ((pg.rollback_insert il.slot_id none).1)) ∧
    (∀ (logs : List Log) (tbl : List (Nat × Nat)) (lm : LogManagerS)
        (bp : BufferPoolManagerS) (lsn idx : Nat) (log : Log) (b : BeginLog),
      alookup tbl lsn = some idx → logs[idx]? = some log →
      log.log_type = LogType.Begin b →
      undoStep logs tbl lm bp lsn = UndoStepRes.done lm bp) ∧
    (∀ (logs : List Log) (tbl : List (Nat × Nat)) (lm : LogManagerS)
        (bp : BufferPoolManagerS) (lsn idx : Nat) (log : Log),
      alookup tbl lsn = some idx → logs[idx]? = some log →
      (∀ il, ¬ log.log_type = LogType.Insert il) →
      (∀ b, ¬ log.log_type = LogType.Begin b) →
      undoStep logs tbl lm bp lsn = UndoStepRes.goto lsn lm bp) ∧
    (∀ (logs : List Log) (tbl : List (Nat × Nat)) (lm : LogManagerS)
        (bp : BufferPoolManagerS) (last idx : Nat) (log : Log)
        (cl : CompensateInsertLog),
      alookup tbl last = some idx → logs[idx]? = some log →
      log.log_type = LogType.CompensateInsert cl →
      undoOne logs tbl lm bp last =
        undoWalk logs tbl (logs.length + 1) cl.next_compenstate_lsn lm bp) := by
  refine ⟨?_, ?_, ?_, ?_⟩
  · intro logs tbl lm bp lsn idx log il h1 h2 h3 wf h4
    obtain ⟨bp₁, pg, bp₃, hr1, hpg, _, hres, hpg3, _⟩ :=
      undoStep_insert_spec logs tbl lm bp lsn idx log il wf h1 h2 h3 h4
    exact ⟨bp₁, pg, bp₃, hr1, hpg, hres, hpg3⟩
  · intro logs tbl lm bp lsn idx log b h1 h2 h3
    unfold undoStep
    rw [h1]
    dsimp only
    rw [h2]
    dsimp only
    rw [h3]
  · intro logs tbl lm bp lsn idx log h1 h2 hni hnb
    obtain ⟨lsn0, ty⟩ := log
    unfold undoStep
    rw [h1]
    dsimp only
    rw [h2]
    dsimp only
    cases ty with
    | Insert il => exact absurd rfl (hni il)
    | Begin b => exact absurd rfl (hnb b)
    | Commit c => rfl
    | Abort a => rfl
    | CompensateInsert cl => rfl
  · intro logs tbl lm bp last idx log cl h1 h2 h3
    unfold undoOne
    rw [h1]
    simp only [Option.bind_eq_bind, Option.some_bind]
    rw [h2]
    simp only [Option.some_bind]
    rw [h3]

/-- Witness for `c5_undo_walk_characterization` on `c5Logs` (Insert at
LSN 2, CompensateInsert at LSN 1, Begin at LSN 0) and `logs9`. -/
theorem c5_undo_walk_characterization_witness :
    (∃ bp₁ pg bp₃, freshPoolOnePage.read_page 0 = some bp₁ ∧
       bp₁.pageOf 0 = some pg ∧
       undoStep logs9 (buildLsnTable logs9) LogManagerS.init freshPoolOnePage 1 =
         UndoStepRes.goto 0 LogManagerS.init bp₃ ∧
       bp₃.pageOf 0 = some ((pg.rollback_insert 0 none).1)) ∧
    undoStep c5Logs (buildLsnTable c5Logs) LogManagerS.init freshPoolOnePage 0 =
      UndoStepRes.done LogManagerS.init freshPoolOnePage ∧
    undoStep c5Logs (buildLsnTable c5Logs) LogManagerS.init freshPoolOnePage 1 =
      UndoStepRes.goto 1 LogManagerS.init freshPoolOnePage ∧
    undoOne c5Logs (buildLsnTable c5Logs) LogManagerS.init freshPoolOnePage 1 =
      undoWalk c5Logs (buildLsnTable c5Logs) (c5Logs.length + 1) 0
        LogManagerS.init freshPoolOnePage := by
  refine ⟨?_, ?_, ?_, ?_⟩
  · exact c5_undo_walk_characterization.1 logs9 (buildLsnTable logs9) LogManagerS.init
      freshPoolOnePage 1 1 ⟨1, .Insert ⟨0, 0, 0, 0, 9⟩⟩ ⟨0, 0, 0, 0, 9⟩
      (by decide) (by decide) rfl ⟨by decide, by decide, by decide, by decide⟩ (by decide)
  · exact c5_undo_walk_characterization.2.1 c5Logs (buildLsnTable c5Logs)
      LogManagerS.init freshPoolOnePage 0 0 ⟨0, .Begin ⟨0⟩⟩ ⟨0⟩ (by decide) (by decide) rfl
  · exact c5_undo_walk_characterization.2.2.1 c5Logs (buildLsnTable c5Logs)
      LogManagerS.init freshPoolOnePage 1 1 ⟨1, .CompensateInsert ⟨0, 0, 0, 0⟩⟩
      (by decide) (by decide) (by intro il hh; cases hh) (by intro b hh; cases hh)
  · exact c5_undo_walk_characterization.2.2.2 c5Logs (buildLsnTable c5Logs)
      LogManagerS.init freshPoolOnePage 1 1 ⟨1, .CompensateInsert ⟨0, 0, 0, 0⟩⟩
      ⟨0, 0, 0, 0⟩ (by decide) (by decide) rfl

/-- C9: at every undone Insert, undo pins the record's page twice
(`read_page` twice, the second never unpinned): afterwards the page's pin
count has grown by exactly 2, no page's pin count ever drops during the
step, and the page's frame is out of the replacer queue with pin count at
least 2; moreover any frame in that state stays pinned (pin count at least
2, never enqueued, hence never an eviction victim) under every subsequent
balanced sequence of buffer-pool calls. -/
theorem c9_undo_double_pins :
    (∀ (logs : List Log) (tbl : List (Nat × Nat)) (lm : LogManagerS)
        (bp : BufferPoolManagerS) (lsn idx : Nat) (log : Log) (il : InsertLog),
      alookup tbl lsn = some idx → logs[idx]? = some log →
      log.log_type = LogType.Insert il → WfPool bp →
      ¬ undoStep logs tbl lm bp lsn = UndoStepRes.fail →
      ∃ bp₁ pg bp₃,
        bp.read_page il.page_id = some bp₁ ∧
        bp₁.pageOf il.page_id = some pg ∧
        (bp₁.setPage il.page_id
            (pg.rollback_insert il.slot_id none).1).read_page il.page_id = some bp₃ ∧
        undoStep logs tbl lm bp lsn = UndoStepRes.goto il.prev_lsn lm bp₃ ∧
        bp₃.pinCountOf il.page_id = bp.pinCountOf il.page_id + 2 ∧
        (∀ q : Nat, bp.pinCountOf q ≤ bp₃.pinCountOf q) ∧
        ∃ fid fr, bp₃.frameIdOf il.page_id = some fid ∧ bp₃.frames[fid]? = some fr ∧
          fr.page_id = il.page_id ∧ 2 ≤ fr.pin_count ∧ fid ∉ bp₃.queue) ∧
    (∀ (pid : Nat) (ops : List PoolOp) (s : Nat) (bp : BufferPoolManagerS)
        (fid : Nat) (fr : Frame) (bp'' : BufferPoolManagerS),
      WfPool bp → alookup bp.page_frame_table pid = some fid →
      bp.frames[fid]? = some fr → fr.page_id = pid → fr.pin_count = s + 2 →
      fid ∉ bp.queue → balancedFor pid s ops = true → applyOps bp ops = some bp'' →
      ∃ s' fr', alookup bp''.page_frame_table pid = some fid ∧
        bp''.frames[fid]? = some fr' ∧ fr'.page_id = pid ∧ fr'.pin_count = s' + 2 ∧
        fid ∉ bp''.queue) := by
  constructor
  · intro logs tbl lm bp lsn idx log il h1 h2 h3 wf h4
    obtain ⟨bp₁, pg, bp₃, hr1, hpg, hr2, hres, _, hpin, hmono, _,
      fid, fr, hf1, hf2, hf3, hf4, hf5⟩ :=
      undoStep_insert_spec logs tbl lm bp lsn idx log il wf h1 h2 h3 h4
    exact ⟨bp₁, pg, bp₃, hr1, hpg, hr2, hres, hpin, hmono,
      fid, fr, hf1, hf2, hf3, by omega, hf5⟩
  · intro pid ops s bp fid fr bp'' wf hlook hfr hid hpin hnq hbal happ
    exact sticky_preserved pid ops s bp fid fr bp'' wf hlook hfr hid hpin hnq hbal happ

/-- Witness for `c9_undo_double_pins`: the undo step at the Insert of
`logs9` over an empty pool, and the sticky frame of `bpSticky` under a
balanced read/unpin pair. -/
theorem c9_undo_double_pins_witness :
    (∃ bp₁ pg bp₃,
       freshPoolOnePage.read_page 0 = some bp₁ ∧
       bp₁.pageOf 0 = some pg ∧
       (bp₁.setPage 0 (pg.rollback_insert 0 none).1).read_page 0 = some bp₃ ∧
       undoStep logs9 (buildLsnTable logs9) LogManagerS.init freshPoolOnePage 1 =
         UndoStepRes.goto 0 LogManagerS.init bp₃ ∧
       bp₃.pinCountOf 0 = freshPoolOnePage.pinCountOf 0 + 2 ∧
       (∀ q : Nat, freshPoolOnePage.pinCountOf q ≤ bp₃.pinCountOf q) ∧
       ∃ fid fr, bp₃.frameIdOf 0 = some fid ∧ bp₃.frames[fid]? = some fr ∧
         fr.page_id = 0 ∧ 2 ≤ fr.pin_count ∧ fid ∉ bp₃.queue) ∧
    (∃ s' fr', alookup bpSticky.page_frame_table 0 = some 0 ∧
       bpSticky.frames[0]? = some fr' ∧ fr'.page_id = 0 ∧ fr'.pin_count = s' + 2 ∧
       (0 : Nat) ∉ bpSticky.queue) := by
  constructor
  · exact c9_undo_double_pins.1 logs9 (buildLsnTable logs9) LogManagerS.init
      freshPoolOnePage 1 1 ⟨1, .Insert ⟨0, 0, 0, 0, 9⟩⟩ ⟨0, 0, 0, 0, 9⟩
      (by decide) (by decide) rfl ⟨by decide, by decide, by decide, by decide⟩ (by decide)
  · exact c9_undo_double_pins.2 0 [PoolOp.readOp 0, PoolOp.unpinOp 0 false] 0 bpSticky
      0 ⟨Page.init 0, 0, 2, false⟩ bpSticky
      ⟨by decide, by decide, by decide, by decide⟩
      (by decide) (by decide) (by decide) (by decide) (by decide) (by decide) (by decide)

/-- C6 amended: in a freshly initialized database the i-th appended record
is stamped LSN `i % 256` — contiguous and strictly increasing from 0 for
the first 256 records — and after `LogManager::load` on a non-empty log
the next append is stamped with the LAST persisted LSN itself (no `+ 1`),
duplicating it. -/
theorem c6_lsn_assignment :
    (∀ ts : List LogType,
        ((appendAll LogManagerS.init ts).buffer.map Log.lsn) =
          (List.range ts.length).map (fun i => i % 256)) ∧
    (∀ (bytes : List Nat) (logs : List Log) (t : LogType), readLogs bytes = some logs →
        ∀ h : ¬ logs = [], ∃ lm, LogManagerS.load bytes = some lm ∧
          ((lm.append t).1).lsn = (logs.getLast h).lsn) := by
  constructor
  · intro ts
    have h0 : LogManagerS.init.current_lsn < 256 := by norm_num [LogManagerS.init]
    simpa [LogManagerS.init] using appendAll_lsns ts LogManagerS.init h0
  · intro bytes logs t hread h
    refine ⟨⟨bytes, ((logs.getLast?).map Log.lsn).getD 0, []⟩, ?_, ?_⟩
    · simp [LogManagerS.load, hread]
    · simp [LogManagerS.append, List.getLast?_eq_getLast _ h]

/-- Witness for `c6_lsn_assignment` at a two-record run and at `c6File`. -/
theorem c6_lsn_assignment_witness :
    ((appendAll LogManagerS.init [LogType.Begin ⟨0⟩, LogType.Commit ⟨0⟩]).buffer.map Log.lsn)
      = [0, 1] ∧
    ∃ lm, LogManagerS.load c6File = some lm ∧
      ((lm.append (LogType.Begin ⟨1⟩)).1).lsn = 1 := by
  constructor
  · exact (c6_lsn_assignment.1 [LogType.Begin ⟨0⟩, LogType.Commit ⟨0⟩]).trans (by decide)
  · obtain ⟨lm, hl, ha⟩ := c6_lsn_assignment.2 c6File
      [⟨0, .Begin ⟨0⟩⟩, ⟨1, .Commit ⟨0⟩⟩] (LogType.Begin ⟨1⟩) (by decide) (by decide)
    exact ⟨lm, hl, ha.trans (by decide)⟩

/-- C7 amended: the `None`-transaction paths of `insert_tuple` and
`rollback_insert` — the only page mutations redo and undo perform — never
write the `page_lsn` byte, and consequently after `Database::load` every
page resident in the rebuilt buffer pool carries exactly the `page_lsn` it
had in the surviving data file when recovery started. -/
theorem c7_recovery_preserves_page_lsn :
    (∀ (p : Page) (t : Nat), ((p.insert_tuple t none).1).page_lsn = p.page_lsn) ∧
    (∀ (p : Page) (s : Nat), ((p.rollback_insert s none).1).page_lsn = p.page_lsn) ∧
    (∀ (disk : List Page) (logBytes : List Nat) (cap : Nat) (db' : DatabaseS),
      DatabaseS.load disk logBytes cap = some db' →
      ∀ (pid : Nat) (pg : Page), db'.bp.pageOf pid = some pg →
        some pg.page_lsn = ((disk[pid]?).map Page.page_lsn)) := by
  refine ⟨insert_tuple_none_page_lsn, rollback_insert_none_page_lsn, ?_⟩
  intro disk logBytes cap db' h pid pg hpg
  unfold DatabaseS.load at h
  cases hlm : LogManagerS.load logBytes with
  | none => rw [hlm] at h; exact absurd h (by simp)
  | some lm =>
      rw [hlm] at h
      simp only [Option.bind_eq_bind, Option.some_bind] at h
      cases hrun : recoveryRun lm ⟨disk, cap, [], [], []⟩ with
      | none => rw [hrun] at h; exact absurd h (by simp)
      | some r =>
          obtain ⟨maxT, lm', bp'⟩ := r
          rw [hrun] at h
          simp only [Option.some_bind] at h
          obtain rfl := Option.some.inj h
          have wf0 : WfPool ⟨disk, cap, [], [], []⟩ :=
            ⟨(by intro e he; cases he), (by intro i hi; simp at hi),
             List.nodup_nil, (by intro i hi; cases hi)⟩
          have inv0 : PoolInv disk ⟨disk, cap, [], [], []⟩ :=
            ⟨fun q => rfl, (by intro i fr hfr; simp at hfr), (by intro e he; cases he)⟩
          obtain ⟨_, invF⟩ := recoveryRun_poolInv disk lm ⟨disk, cap, [], [], []⟩
            maxT lm' bp' wf0 inv0 hrun
          exact poolInv_pageOf disk bp' pid pg invF hpg

/-- C7 amended, witnessed: reloading a one-page data file against the
flushed log Begin/Insert/Commit leaves page 0 resident with the Insert
replayed (tuple_length is 1) while its `page_lsn` is still the data
file's value 0. -/
theorem c7_recovery_preserves_page_lsn_witness :
    ∃ (db' : DatabaseS) (pg : Page), c7Db = some db' ∧
      db'.bp.pageOf 0 = some pg ∧
      some pg.page_lsn = ((([Page.init 0] : List Page)[0]?).map Page.page_lsn) ∧
      pg.tuple_length = 1 := by
  have h1 : c7Db.isSome = true := by decide
  obtain ⟨db', hdb⟩ := Option.isSome_iff_exists.mp h1
  have h2 : (c7Db.bind (fun db => db.bp.pageOf 0)).isSome = true := by decide
  rw [hdb] at h2
  simp only [Option.some_bind] at h2
  obtain ⟨pg, hpg⟩ := Option.isSome_iff_exists.mp h2
  have h3 : (c7Db.bind (fun db => db.bp.pageOf 0)).map Page.tuple_length = some 1 := by
    decide
  rw [hdb] at h3
  simp only [Option.some_bind] at h3
  rw [hpg] at h3
  exact ⟨db', pg, hdb, hpg,
    c7_recovery_preserves_page_lsn.2.2 [Page.init 0] c7File 10 db' hdb 0 pg hpg,
    by simpa using h3⟩

/-- C10 counterexample: on a capacity-1 pool whose only frame holds page 0
dirty and unpinned, with `last_page_id = 1`, `read_all` returns the
concatenated tuples [42] but evicts the dirty frame while reading page 1:
after the call the frame holds page 1 with its dirty flag reset to false,
refuting "after it returns every frame's ... dirty flag equal their values
before the call". -/
theorem c10_read_all_eviction_resets_dirty :
    (c10After.map (fun r => r.1)) = some [42] ∧
    (c10Bp.frames.map Frame.is_dirty) = [true] ∧
    (c10After.map (fun r => r.2.frames.map Frame.is_dirty)) = some [false] := by
  refine ⟨by decide, by decide, by decide⟩

/-- C10 amended: when every page `0 .. last_page_id` is already resident
in the buffer pool, `Database::read_all` succeeds, restores the frames
(pin counts, dirty flags and cached bytes), the page table, the data file
and the log manager exactly (only the replacer queue may change), and
returns the concatenation of the resident pages' occupied slots in page
order. -/
theorem c10_read_all_restores_frames (db : DatabaseS)
    (hres : ∀ q, q ≤ db.last_page_id → ∃ fid fr,
        alookup db.bp.page_frame_table q = some fid ∧ db.bp.frames[fid]? = some fr) :
    ∃ vals db', db.read_all = some (vals, db') ∧
      db'.bp.frames = db.bp.frames ∧
      db'.bp.page_frame_table = db.bp.page_frame_table ∧
      db'.bp.disk = db.bp.disk ∧
      db'.lm = db.lm ∧
      vals = ((List.range (db.last_page_id + 1)).map (poolTuples db.bp)).flatten := by
  obtain ⟨vals, bp', hloop, hf, ht, hd, hv⟩ :=
    readAllLoop_resident db.last_page_id db.last_page_id 0 db.bp (by omega)
      (fun q _ hq => hres q hq)
  refine ⟨vals, { db with bp := bp' }, ?_, hf, ht, hd, rfl, ?_⟩
  · unfold DatabaseS.read_all
    rw [hloop]
    simp only [Option.bind_eq_bind, Option.some_bind]
  · rw [hv, List.range_eq_range']

/-- C10 amended, witnessed on a pool holding both pages of a two-page
file (one frame dirty, one clean): `read_all` returns the resident
tuples and leaves frames, table, data file and log manager unchanged. -/
theorem c10_read_all_restores_frames_witness :
    ∃ vals db', c10ResidentDb.read_all = some (vals, db') ∧
      db'.bp.frames = c10ResidentDb.bp.frames ∧
      db'.bp.page_frame_table = c10ResidentDb.bp.page_frame_table ∧
      db'.bp.disk = c10ResidentDb.bp.disk ∧
      db'.lm = c10ResidentDb.lm ∧
      vals = ((List.range (c10ResidentDb.last_page_id + 1)).map
        (poolTuples c10ResidentDb.bp)).flatten :=
  c10_read_all_restores_frames c10ResidentDb (by
    intro q hq
    match q, hq with
    | 0, _ => exact ⟨0, ⟨c10DirtyPage, 0, 0, true⟩, rfl, rfl⟩
    | 1, _ => exact ⟨1, ⟨Page.init 1, 1, 0, false⟩, rfl, rfl⟩
    | n + 2, hq => exact absurd (show n + 2 ≤ 1 from hq) (by omega))

end Rdbms
